import Mathlib

/-!
Verification of the portfolio-simulation engine of the stock-analysis agent
(`agent/stock_analysis.py`, `agent/main.py`).

Shallow embedding conventions:
* Python floats are modelled as `ℚ`; a pandas `NaN` ("no data") cell is
  `Option ℚ` with `none` for `NaN`.
* A pandas `DataFrame` of closing prices is a list of date labels plus one
  row (list of `Option ℚ` price cells, positionally aligned with the ticker
  list) per date.  Column lookup `row[ticker]` is by column name
  (`colPrice`), exactly as pandas does it.
* Python's float floor division `a // p` is `⌊a / p⌋ : ℤ`; Python raises
  `ZeroDivisionError` on `a // 0.0`, which the model records in an `error`
  flag on the simulation state (once set, the remaining iterations are
  skipped, mirroring exception propagation out of the loop).
* Python dicts keyed by ticker (`holdings`, the per-ticker summary dicts)
  are total functions `String → _` updated pointwise, matching dict
  assignment semantics (including on duplicate ticker names).
-/

namespace StockAnalysis

/-- Pointwise update of a ticker-keyed dict, `d[t] = v`. -/
def dupd (f : String → ℚ) (t : String) (v : ℚ) : String → ℚ :=
  fun x => if x = t then v else f x

/-- `row[ticker]` on a price row: pandas column lookup by name.  The row is
positionally aligned with the ticker list; the first column with the given
name wins (pandas columns from a `yf.download` batch are unique). -/
def colPrice : List String → List (Option ℚ) → String → Option ℚ
  | t :: ts, p :: ps, x => if t = x then p else colPrice ts ps x
  | _, _, _ => none

/-- Python truthiness of `a > b` where `a` may be `NaN` (`none`):
`NaN > b` is `False`. -/
def pyGtO (a : Option ℚ) (b : ℚ) : Bool :=
  match a with
  | none => false
  | some x => decide (b < x)

/-- `NaN`-propagating addition (`float + float` with `none` as `NaN`). -/
def optAdd (a b : Option ℚ) : Option ℚ :=
  match a, b with
  | some x, some y => some (x + y)
  | _, _ => none

/-- `NaN`-propagating subtraction. -/
def optSub (a b : Option ℚ) : Option ℚ :=
  match a, b with
  | some x, some y => some (x - y)
  | _, _ => none

/-- `NaN`-propagating multiplication. -/
def optMul (a b : Option ℚ) : Option ℚ :=
  match a, b with
  | some x, some y => some (x * y)
  | _, _ => none

/-- `NaN`-propagating division (only used under a `> 0` guard on the
denominator, so the `b = 0` case is unreachable at call sites). -/
def optDiv (a b : Option ℚ) : Option ℚ :=
  match a, b with
  | some x, some y => some (x / y)
  | _, _ => none

/-- Round to two decimals: model of parsing back the `:.2f`-formatted cost
from a log line (`float(log.split("(cost: $")[-1].split(")")[0])`).
Python's `:.2f` rounding of a float is approximated by half-up rounding of
the rational. -/
def round2 (q : ℚ) : ℚ := (round (q * 100) : ℤ) / 100

/-- One transaction-log line of `cash_allocation`, structured.  The Python
code stores formatted strings; the constructors carry exactly the data
interpolated into each format string (stock_analysis.py lines 438-439,
455-457, 460-462, 469-471, 494-496, 503-505). -/
inductive LogEntry
  | bought (date ticker : String) (shares : ℤ) (price cost : ℚ)
  | noData (date ticker : String)
  | notEnoughAllocated (date ticker : String) (price allocated : ℚ)
  | notEnoughCash (date ticker : String) (price cash : ℚ)
  deriving DecidableEq

/-- The date a log line was tagged with. -/
def LogEntry.date : LogEntry → String
  | .bought d _ _ _ _ => d
  | .noData d _ => d
  | .notEnoughAllocated d _ _ _ => d
  | .notEnoughCash d _ _ _ => d

/-- A shortfall tuple `(date, ticker, price, context-amount)` appended to
`add_funds_dates`; the price is `none` when it was `NaN`. -/
abbrev Shortfall := String × String × Option ℚ × ℚ

/-- Mutable state of the allocation loop in `cash_allocation`
(stock_analysis.py lines 416-419): per-ticker holdings dict, running cash,
transaction log, insufficient-funds flag and shortfall list.  `error`
models a raised `ZeroDivisionError` (float `//` by `0.0`). -/
structure SimState where
  holdings : String → ℚ
  cash : ℚ
  log : List LogEntry
  addFundsNeeded : Bool
  addFundsDates : List Shortfall
  error : Bool

/-- Initial simulation state (`holdings = {t: 0.0}`, `total_cash`,
empty log, flags clear). -/
def initState (cash0 : ℚ) : SimState :=
  { holdings := fun _ => 0
    cash := cash0
    log := []
    addFundsNeeded := false
    addFundsDates := []
    error := false }

/-- One ticker of the `single_shot` purchase round (stock_analysis.py lines
433-475).  `d0` and `row` are the first index entry of the (sorted)
DataFrame; the item is `(idx, ticker)` from `enumerate(tickers)`. -/
def ssStep (tickers : List String) (amounts : List ℚ) (d0 : String)
    (row : List (Option ℚ)) (s : SimState) (item : ℕ × String) : SimState :=
  if s.error then s else
  let idx := item.1
  let ticker := item.2
  match colPrice tickers row ticker with
  | none =>
      -- `np.isnan(price)`: log, flag, shortfall, continue
      { s with
        log := s.log ++ [.noData d0 ticker]
        addFundsNeeded := true
        addFundsDates := s.addFundsDates ++ [(d0, ticker, none, amounts.getD idx 0)] }
  | some price =>
      let allocated := amounts.getD idx 0
      if s.cash ≥ allocated ∧ allocated ≥ price then
        -- `shares_to_buy = allocated // price` raises on a zero price
        if price = 0 then { s with error := true }
        else
          let shares : ℤ := ⌊allocated / price⌋
          if 0 < shares then
            let cost : ℚ := shares * price
            { s with
              holdings := dupd s.holdings ticker (s.holdings ticker + shares)
              cash := s.cash - cost
              log := s.log ++ [.bought d0 ticker shares price cost] }
          else
            { s with
              log := s.log ++ [.notEnoughAllocated d0 ticker price allocated]
              addFundsNeeded := true
              addFundsDates := s.addFundsDates ++ [(d0, ticker, some price, allocated)] }
      else
        { s with
          log := s.log ++ [.notEnoughCash d0 ticker price s.cash]
          addFundsNeeded := true
          addFundsDates := s.addFundsDates ++ [(d0, ticker, some price, s.cash)] }

/-- The `single_shot` branch given the first index entry of the sorted
DataFrame: one fold over `enumerate(tickers)`; no further purchases on
subsequent dates (the branch never touches any later row). -/
def runSingleShot (tickers : List String) (amounts : List ℚ) (d0 : String)
    (row : List (Option ℚ)) (cash0 : ℚ) : SimState :=
  (List.range tickers.length |>.zip tickers).foldl
    (ssStep tickers amounts d0 row) (initState cash0)

/-- One `(date, ticker)` visit of the periodic (DCA) branch
(stock_analysis.py lines 480-505).  The item carries the date label, the
ticker, and `row[ticker]`. -/
def dcaStep (s : SimState) (item : String × String × Option ℚ) : SimState :=
  if s.error then s else
  let date := item.1
  let ticker := item.2.1
  match item.2.2 with
  | none => s  -- `continue` on NaN
  | some price =>
      if s.cash ≥ price then
        -- `shares_to_buy = total_cash // price` raises on a zero price
        if price = 0 then { s with error := true }
        else
          let shares : ℤ := ⌊s.cash / price⌋
          if 0 < shares then
            let cost : ℚ := shares * price
            { s with
              holdings := dupd s.holdings ticker (s.holdings ticker + shares)
              cash := s.cash - cost
              log := s.log ++ [.bought date ticker shares price cost] }
          else s
      else
        { s with
          addFundsNeeded := true
          addFundsDates := s.addFundsDates ++ [(date, ticker, some price, s.cash)]
          log := s.log ++ [.notEnoughCash date ticker price s.cash] }

/-- The iteration order of the periodic branch: every date of the (sorted)
index in order, and within a date every ticker in list order, each visit
seeing `row[ticker]`. -/
def dcaItems (tickers : List String) (dates : List String)
    (rows : List (List (Option ℚ))) : List (String × String × Option ℚ) :=
  (dates.zip rows).flatMap fun dr =>
    tickers.map fun t => (dr.1, t, colPrice tickers dr.2 t)

/-- The periodic (non-`single_shot`) branch of `cash_allocation`.  The
per-ticker `amounts` list is in scope in the Python code but never read by
this branch; it is kept as an argument to state that fact. -/
def runDCA (tickers : List String) (amounts : List ℚ) (dates : List String)
    (rows : List (List (Option ℚ))) (cash0 : ℚ) : SimState :=
  let _ := amounts
  (dcaItems tickers dates rows).foldl dcaStep (initState cash0)

/-- All intermediate states of a fold, initial state first:
`simTrace f s l = [s, f s l₀, f (f s l₀) l₁, …]`. -/
def simTrace (f : SimState → α → SimState) (s : SimState) :
    List α → List SimState
  | [] => [s]
  | x :: xs => s :: simTrace f (f s x) xs

/-! ### Post-simulation derivation (stock_analysis.py lines 507-673) -/

/-- Pointwise update of a ticker-keyed dict of `NaN`-able floats. -/
def dupdO (f : String → Option ℚ) (t : String) (v : Option ℚ) : String → Option ℚ :=
  fun x => if x = t then v else f x

/-- Amount invested in one ticker (lines 518-536).  For `single_shot`,
`holdings[ticker] * price-at-first-date` (`NaN` when the first-date price
was missing: Python's `0.0 * nan` is `nan`).  Otherwise the costs are
parsed back out of the formatted log lines: a line matches when it contains
`"Bought"` (only purchase lines do) and the substring `"shares of {ticker}"`,
which for a purchase line of ticker `T` means `ticker` is a prefix of `T`;
the parsed cost is the `:.2f`-rounded cost. -/
def investedFor (single : Bool) (tickers : List String)
    (firstRow : List (Option ℚ)) (holdings : String → ℚ)
    (log : List LogEntry) (ticker : String) : Option ℚ :=
  if single then
    (colPrice tickers firstRow ticker).map (fun p => holdings ticker * p)
  else
    some (log.foldl
      (fun acc e =>
        match e with
        | .bought _ T _ _ c => if ticker.isPrefixOf T then acc + round2 c else acc
        | _ => acc)
      0)

/-- First pass over `enumerate(tickers)` (lines 517-538): builds
`total_invested_per_stock` and accumulates `total_invested`
(`NaN`-propagating float addition starting from `0.0`). -/
def investedDicts (single : Bool) (tickers : List String)
    (firstRow : List (Option ℚ)) (holdings : String → ℚ)
    (log : List LogEntry) : (String → Option ℚ) × Option ℚ :=
  tickers.foldl
    (fun acc t =>
      let inv := investedFor single tickers firstRow holdings log t
      (dupdO acc.1 t inv, optAdd acc.2 inv))
    (fun _ => none, some 0)

/-- Result of the second per-ticker pass (lines 541-557). -/
structure SummaryStats where
  returns : String → Option ℚ
  percentAllocationPerStock : String → Option ℚ
  percentReturnPerStock : String → Option ℚ
  totalValue : Option ℚ

/-- One ticker of the second per-ticker pass (lines 542-556). -/
def summaryStep (tickers : List String) (lastRow : List (Option ℚ))
    (holdings : String → ℚ) (investedD : String → Option ℚ)
    (totalInvested : Option ℚ) (acc : SummaryStats) (t : String) : SummaryStats :=
  let inv := investedD t
  let hv := (colPrice tickers lastRow t).map (fun p => holdings t * p)
  { returns := dupdO acc.returns t (optSub hv inv)
    percentAllocationPerStock := dupdO acc.percentAllocationPerStock t
      (if pyGtO totalInvested 0 then optMul (optDiv inv totalInvested) (some 100)
       else some 0)
    percentReturnPerStock := dupdO acc.percentReturnPerStock t
      (if pyGtO inv 0 then optMul (optDiv (optSub hv inv) inv) (some 100)
       else some 0)
    totalValue := optAdd acc.totalValue hv }

/-- Second pass over `tickers` (lines 541-557): absolute returns, running
total value, percent allocation and percent return, each percent
short-circuiting to `0.0` when its denominator is not `> 0` (Python's
comparison is `False` for `NaN` as well).  After the loop the remaining
cash is added to the total value (line 557). -/
def summaryStats (tickers : List String) (lastRow : List (Option ℚ))
    (holdings : String → ℚ) (investedD : String → Option ℚ)
    (totalInvested : Option ℚ) (cash : ℚ) : SummaryStats :=
  let s := tickers.foldl
    (summaryStep tickers lastRow holdings investedD totalInvested)
    { returns := fun _ => none
      percentAllocationPerStock := fun _ => none
      percentReturnPerStock := fun _ => none
      totalValue := some 0 }
  { s with totalValue := optAdd s.totalValue (some cash) }

/-- State of the parallel SPY benchmark simulation (lines 597-633).
All three floats start from `total_invested`, which may be `NaN`; `error`
again models `ZeroDivisionError` from `//` by a zero price. -/
structure SpyState where
  shares : Option ℚ
  cash : Option ℚ
  invested : Option ℚ
  error : Bool

/-- Single-shot SPY purchase (lines 604-616): buy at the first date's
(reindexed) SPY price if it is not `NaN`; `spy_cash // spy_price` raises on
a zero price and propagates `NaN` from a `NaN` cash. -/
def spySingleShot (firstSpy : Option ℚ) (cash0 : Option ℚ) : SpyState :=
  match firstSpy with
  | none => { shares := some 0, cash := cash0, invested := some 0, error := false }
  | some p =>
      if p = 0 then { shares := some 0, cash := cash0, invested := some 0, error := true }
      else
        let shares := cash0.map (fun c => ((⌊c / p⌋ : ℤ) : ℚ))
        let invested := optMul shares (some p)
        { shares := shares, cash := optSub cash0 invested, invested := invested
          error := false }

/-- One date of the SPY DCA loop (lines 621-633): skip `NaN` prices, else
buy `dca_amount // price` shares from the equal-sized periodic budget. -/
def spyDCAStep (dca : Option ℚ) (s : SpyState) (po : Option ℚ) : SpyState :=
  if s.error then s else
  match po with
  | none => s
  | some p =>
      if p = 0 then { s with error := true }
      else
        let shares := dca.map (fun a => ((⌊a / p⌋ : ℤ) : ℚ))
        let cost := optMul shares (some p)
        { shares := optAdd s.shares shares
          cash := optSub s.cash cost
          invested := optAdd s.invested cost
          error := false }

/-- SPY DCA branch (lines 618-633): `dca_amount = total_invested /
len(stock_data)`, then one visit per date of the index. -/
def spyDCA (numDates : ℕ) (spy : List (Option ℚ)) (totalInvested : Option ℚ) :
    SpyState :=
  let dca := totalInvested.map (fun ti => ti / (numDates : ℚ))
  spy.foldl (spyDCAStep dca)
    { shares := some 0, cash := totalInvested, invested := some 0, error := false }

/-- One point of the `performanceData` array (lines 663-669). -/
structure PerfPoint where
  date : String
  portfolio : Option ℚ
  spy : Option ℚ
  deriving DecidableEq

/-- Portfolio value at one date (lines 644-651): sum over tickers whose
price at that date is valid of `running_holdings[t] * price`; cash is not
included (the `+ running_cash` term is commented out in the source). -/
def portValueAt (tickers : List String) (row : List (Option ℚ))
    (holdings : String → ℚ) : ℚ :=
  tickers.foldl
    (fun acc t =>
      match colPrice tickers row t with
      | some p => acc + holdings t * p
      | none => acc)
    0

/-- The `performanceData` array (lines 637-669): one point per date of the
index.  `running_holdings` is a copy of the final holdings dict and is
never modified inside the loop, so every point is valued with the final
holdings.  The SPY value is `None` when the SPY price at the date is `NaN`,
else `spy_shares * price + spy_cash` (`NaN`-propagating). -/
def performanceData (tickers : List String) (dates : List String)
    (rows : List (List (Option ℚ))) (spy : List (Option ℚ))
    (holdings : String → ℚ) (spyShares spyCash : Option ℚ) : List PerfPoint :=
  (dates.zip (rows.zip spy)).map fun x =>
    { date := x.1
      portfolio := some (portValueAt tickers x.2.1 holdings)
      spy :=
        match x.2.2 with
        | none => none
        | some p => optAdd (optMul spyShares (some p)) spyCash }

/-- The `investment_summary` dict stored into the shared context
(lines 561-573 plus the `performanceData` added at line 672). -/
structure InvestmentSummary where
  holdings : String → ℚ
  finalPrices : String → Option ℚ
  cash : ℚ
  returns : String → Option ℚ
  totalValue : Option ℚ
  investmentLog : List LogEntry
  addFundsNeeded : Bool
  addFundsDates : List Shortfall
  totalInvestedPerStock : String → Option ℚ
  percentAllocationPerStock : String → Option ℚ
  percentReturnPerStock : String → Option ℚ
  performanceData : List PerfPoint

/-! ### Pipeline stages and the shared context

The four workflow steps (`chat`, `simultion`, `cash_allocation`,
`gather_insights`) thread one shared `additional_data` dict.  External
collaborators (the chat-completion call, the two `yf.download` calls) are
passed in as explicit arguments: for a deterministic embedding a stage
takes the collaborator's reply (or its failure) as input.  The `emit_event`
callback is modelled as an append-only trace of emitted deltas inside the
context. -/

/-- Structured arguments of the `extract_relevant_data_from_user_prompt`
tool call (the JSON payload the first LLM call returns). -/
structure ExtractedArgs where
  ticker_symbols : List String
  investment_date : String
  amount_of_dollars_to_be_invested : List ℚ
  interval_of_investment : Option String
  to_be_added_in_portfolio : Bool
  deriving DecidableEq

/-- Bull/bear insights payload of the `generate_insights` tool call:
`(title, description, emoji)` triples. -/
structure Insights where
  bullInsights : List (String × String × String)
  bearInsights : List (String × String × String)
  deriving DecidableEq

/-- The decoded `function.arguments` JSON of a tool call appearing in the
conversation.  `gather_insights` adds an `insights` key to whichever dict
it finds there, hence the `Option Insights` component on both shapes. -/
inductive ArgPayload
  | extract (a : ExtractedArgs) (insights : Option Insights)
  | render (s : InvestmentSummary) (insights : Option Insights)

/-- An internal tool-call record (`convert_tool_call` output shape:
id, function name, decoded arguments). -/
structure ToolCall where
  id : String
  name : String
  args : ArgPayload

/-- A conversation message: user/assistant/tool role, optional content,
optional tool-call list (assistant), optional answered-tool-call id
(tool messages). -/
structure Message where
  role : String
  id : String
  content : Option String
  toolCalls : Option (List ToolCall)
  toolCallId : Option String

/-- A `StateDeltaEvent` emitted by a pipeline stage through `emit_event`:
append a processing tool-log entry, patch a tool-log status to completed,
or replace the investment portfolio snapshot. -/
inductive ProgressDelta
  | addToolLog (id message : String)
  | completeToolLog (idx : ℕ)
  | replacePortfolio (pairs : List (String × ℚ))
  deriving DecidableEq

/-- An entry of the context's local `tool_logs` list.  The stages append
entries with status `"processing"`; the completion patch is only emitted
as a delta event, the local list entry is never updated. -/
structure ToolLogEntry where
  id : String
  message : String
  status : String

/-- The shared `additional_data` context threaded through the pipeline. -/
structure Ctx where
  messages : List Message
  toolLogs : List ToolLogEntry
  emitted : List ProgressDelta
  availableCash : Option ℚ
  investmentPortfolio : List (String × ℚ)
  beStockData : Option (List String × List (List (Option ℚ)))
  beArguments : Option ExtractedArgs
  investmentSummary : Option InvestmentSummary
  insights : Option Insights

/-- `tool_calls` of the most recent conversation message (the guard each
of the last three stages re-checks). -/
def lastToolCalls (ctx : Ctx) : Option (List ToolCall) :=
  match ctx.messages.getLast? with
  | some m => m.toolCalls
  | none => none

/-- The chat-completion collaborator's reply: either a tool-call response
(`finish_reason == "tool_calls"`) or a plain-text one. -/
inductive LLMResponse
  | toolCalls (id : String) (tcs : List ToolCall)
  | text (id : String) (content : Option String)

/-- Stand-in for `system_prompt.replace("{PORTFOLIO_DATA_PLACEHOLDER}",
json.dumps(portfolio))`; the prompt text itself lives in `prompts.py`,
outside the embedded core, and no claim depends on it. -/
def renderedSystemPrompt (portfolio : List (String × ℚ)) : String :=
  portfolio.foldl (fun acc x => acc ++ x.1 ++ toString x.2) "SYSTEM_PROMPT "

/-- `messages[0].content = ...` (chat step 4).  The conversation always
starts with the system message; on an empty list Python would raise. -/
def setContent0 (msgs : List Message) (c : String) : List Message :=
  match msgs with
  | [] => []
  | m :: rest => { m with content := some c } :: rest

/-- WORKFLOW STEP 1 `chat` (stock_analysis.py lines 139-239).  Returns the
mutated context together with the outcome: `.ok false` is the normal
`return step_input.additional_data`; `.ok true` would be the handler's
`return "end"`; `.error ()` is an exception escaping the step.

The `except` handler (lines 233-239) builds
`AssistantMessage(id=response.id, ...)`.  When the exception was raised by
the chat-completion call itself (line 185), the local `response` was never
bound, so the handler itself raises `NameError`: no empty assistant message
is appended and the exception propagates — hence the `.error ()` outcome,
with only the mutations made before the call (tool log, emitted delta,
system-prompt substitution) surviving in the shared dict. -/
def chat (completion : Except Unit LLMResponse) (logId : String) (ctx : Ctx) :
    Ctx × Except Unit Bool :=
  let ctx1 : Ctx :=
    { ctx with
      toolLogs := ctx.toolLogs ++ [⟨logId, "Analyzing user query", "processing"⟩]
      emitted := ctx.emitted ++ [.addToolLog logId "Analyzing user query"]
      messages := setContent0 ctx.messages (renderedSystemPrompt ctx.investmentPortfolio) }
  match completion with
  | .error _ => (ctx1, .error ())
  | .ok resp =>
      let ctx2 : Ctx :=
        { ctx1 with emitted := ctx1.emitted ++ [.completeToolLog (ctx1.toolLogs.length - 1)] }
      match resp with
      | .toolCalls rid tcs =>
          ({ ctx2 with
             messages := ctx2.messages ++
               [⟨"assistant", rid, none, some tcs, none⟩] }, .ok false)
      | .text rid c =>
          ({ ctx2 with
             messages := ctx2.messages ++
               [⟨"assistant", rid, c, none, none⟩] }, .ok false)

/-- `int(investment_date[:4])`: the year parsed from the first four
characters of the date string. -/
def yearOf (s : String) : Option ℤ := (s.take 4).toInt?

/-- Date-clamp policy of `simultion` (stock_analysis.py lines 317-321):
if `current_year - int(investment_date[:4]) > 4`, the start date becomes
`f"{current_year - 4}-01-01"`, else the investment date is used unchanged.
`none` models the `ValueError` of an unparsable year. -/
def clampedInvestmentDate (currentYear : ℤ) (investment_date : String) :
    Option String :=
  (yearOf investment_date).map fun y =>
    if currentYear - y > 4 then toString (currentYear - 4) ++ "-01-01"
    else investment_date

/-- The informational lookback label (lines 323-327), computed from the
clamped date but not used by the fetch (its `period=` argument is
commented out in the source). -/
def history_period (currentYear : ℤ) (dateClamped : String) : Option String :=
  (yearOf dateClamped).map fun y =>
    if currentYear - y = 0 then "1y" else toString (currentYear - y) ++ "y"

/-- WORKFLOW STEP 2 `simultion` (stock_analysis.py lines 244-361).
`fetch` is the `yf.download(...)["Close"]` collaborator, keyed by the
effective start date it is called with.  `.error ()` models an uncaught
exception (unparsable date year, or tool-call arguments of the wrong
shape, both of which raise in Python). -/
def simultion (fetch : String → List String × List (List (Option ℚ)))
    (currentYear : ℤ) (logId : String) (ctx : Ctx) : Except Unit Ctx :=
  match lastToolCalls ctx with
  | none => .ok ctx
  | some tcs =>
    match tcs with
    | [] => .error ()  -- `tool_calls[0]` raises IndexError
    | tc :: _ =>
      match tc.args with
      | .render _ _ => .error ()  -- `arguments["ticker_symbols"]` raises KeyError
      | .extract args _ =>
        let ctx1 : Ctx :=
          { ctx with
            toolLogs := ctx.toolLogs ++ [⟨logId, "Gathering Stock Data", "processing"⟩]
            emitted := ctx.emitted ++ [.addToolLog logId "Gathering Stock Data"] }
        let pairs := (List.range args.ticker_symbols.length |>.zip args.ticker_symbols).map
          fun it => (it.2, args.amount_of_dollars_to_be_invested.getD it.1 0)
        let ctx2 : Ctx :=
          { ctx1 with
            investmentPortfolio := pairs
            emitted := ctx1.emitted ++ [.replacePortfolio pairs] }
        match clampedInvestmentDate currentYear args.investment_date with
        | none => .error ()  -- int() raised ValueError
        | some startDate =>
          let data := fetch startDate
          .ok { ctx2 with
                beStockData := some data
                beArguments := some args
                emitted := ctx2.emitted ++ [.completeToolLog (ctx2.toolLogs.length - 1)] }

/-- Sort the date-indexed rows chronologically (`stock_data.sort_index()`,
line 423); date labels are ISO strings so lexicographic order is
chronological order.  Plain insertion sort. -/
def sortByDate : List (String × List (Option ℚ)) → List (String × List (Option ℚ))
  | [] => []
  | x :: xs => insertByDate x (sortByDate xs)
where
  insertByDate (x : String × List (Option ℚ)) :
      List (String × List (Option ℚ)) → List (String × List (Option ℚ))
    | [] => [x]
    | y :: ys => if x.1 ≤ y.1 then x :: y :: ys else y :: insertByDate x ys

/-- WORKFLOW STEP 3 `cash_allocation` (stock_analysis.py lines 366-736).
`spyFetch` is the SPY `yf.download` collaborator, already reindexed onto
the price-series dates (`none` for the whole-call failure that the source
catches and replaces by an all-`None` series, lines 592-595).  `.error ()`
models an uncaught exception: missing context keys, an empty price index
(`index[0]` / `iloc[-1]`), or `ZeroDivisionError` from a zero price in the
portfolio or SPY simulation.  The summary narrative `msg` built at lines
676-689 is dead code (never stored or sent) and is not modelled. -/
def cash_allocation (spyFetch : Option (List (Option ℚ)))
    (logId toolMsgId assistMsgId tcId : String) (ctx : Ctx) : Except Unit Ctx :=
  match lastToolCalls ctx with
  | none => .ok ctx
  | some _ =>
    match ctx.beStockData, ctx.beArguments with
    | some stockData, some args =>
      let ctx1 : Ctx :=
        { ctx with
          toolLogs := ctx.toolLogs ++
            [⟨logId, "Calculating portfolio allocation", "processing"⟩]
          emitted := ctx.emitted ++ [.addToolLog logId "Allocating cash"] }
      let tickers := args.ticker_symbols
      let amounts := args.amount_of_dollars_to_be_invested
      let interval := args.interval_of_investment.getD "single_shot"
      let total_cash : ℚ :=
        match ctx.availableCash with
        | some c => c
        | none => amounts.sum
      match sortByDate (stockData.1.zip stockData.2) with
      | [] => .error ()  -- `stock_data.index[0]` / `iloc[-1]` raise IndexError
      | first :: rest =>
        let sorted := first :: rest
        let dates := sorted.map Prod.fst
        let rows := sorted.map Prod.snd
        let single := interval == "single_shot"
        let sim :=
          if single then runSingleShot tickers amounts first.1 first.2 total_cash
          else runDCA tickers amounts dates rows total_cash
        if sim.error then .error () else
        let lastRow := (sorted.getLast (List.cons_ne_nil first rest)).2
        let inv := investedDicts single tickers first.2 sim.holdings sim.log
        let stats := summaryStats tickers lastRow sim.holdings inv.1 inv.2 sim.cash
        let spy := spyFetch.getD (List.replicate dates.length none)
        let spySim :=
          if single then spySingleShot (spy.getD 0 none) inv.2
          else spyDCA dates.length spy inv.2
        if spySim.error then .error () else
        let perf := performanceData tickers dates rows spy sim.holdings
          spySim.shares spySim.cash
        let summary : InvestmentSummary :=
          { holdings := sim.holdings
            finalPrices := fun t => colPrice tickers lastRow t
            cash := sim.cash
            returns := stats.returns
            totalValue := stats.totalValue
            investmentLog := sim.log
            addFundsNeeded := sim.addFundsNeeded
            addFundsDates := sim.addFundsDates
            totalInvestedPerStock := inv.1
            percentAllocationPerStock := stats.percentAllocationPerStock
            percentReturnPerStock := stats.percentReturnPerStock
            performanceData := perf }
        -- `tool_call_id` of the acknowledging tool message is read from the
        -- extract tool call that is still `messages[-1]` at that point
        let ackId :=
          match lastToolCalls ctx with
          | some (tc :: _) => tc.id
          | _ => ""
        .ok { ctx1 with
              investmentSummary := some summary
              availableCash := some sim.cash
              messages := ctx1.messages ++
                [⟨"tool", toolMsgId, some "The relevant details had been extracted",
                  none, some ackId⟩,
                 ⟨"assistant", assistMsgId, none,
                  some [⟨tcId, "render_standard_charts_and_table",
                         .render summary none⟩], none⟩]
              emitted := ctx1.emitted ++ [.completeToolLog (ctx1.toolLogs.length - 1)] }
    | _, _ => .error ()  -- `be_stock_data` / `be_arguments` missing: KeyError

/-- Add the `insights` key to a decoded tool-call arguments dict
(gather_insights steps 8-10). -/
def addInsights : ArgPayload → Insights → ArgPayload
  | .extract a _, i => .extract a (some i)
  | .render s _, i => .render s (some i)

/-- Replace the first tool call's arguments of the last message
(`messages[-1].tool_calls[0].function.arguments = ...`). -/
def setLastToolCallArgs (msgs : List Message) (ins : Insights) : List Message :=
  match msgs.getLast? with
  | some m =>
      match m.toolCalls with
      | some (tc :: rest) =>
          msgs.dropLast ++
            [{ m with toolCalls := some ({ tc with args := addInsights tc.args ins } :: rest) }]
      | _ => msgs
  | none => msgs

/-- WORKFLOW STEP 4 `gather_insights` (stock_analysis.py lines 741-831).
`insightsResp` is the second chat-completion collaborator's reply: `some`
when it selected the `generate_insights` tool, `none` for a plain-text
reply.  Both the guard branch and the normal exit return
`StepOutput(content=additional_data)`, i.e. the (possibly updated) shared
context itself, which is therefore the pipeline output. -/
def gather_insights (insightsResp : Option Insights) (logId : String)
    (ctx : Ctx) : Except Unit Ctx :=
  match lastToolCalls ctx with
  | none => .ok ctx
  | some tcs =>
    match ctx.beArguments with
    | none => .error ()  -- `be_arguments` missing: KeyError
    | some _ =>
      match tcs with
      | [] => .error ()  -- `tool_calls[0]` raises IndexError
      | _ :: _ =>
        let ctx1 : Ctx :=
          { ctx with
            toolLogs := ctx.toolLogs ++ [⟨logId, "Extracting Key insights", "processing"⟩]
            emitted := ctx.emitted ++ [.addToolLog logId "Extracting Key insights"] }
        let ctx2 : Ctx :=
          match insightsResp with
          | some ins => { ctx1 with messages := setLastToolCallArgs ctx1.messages ins }
          | none => { ctx1 with insights := some ⟨[], []⟩ }
        .ok { ctx2 with
              emitted := ctx2.emitted ++ [.completeToolLog (ctx2.toolLogs.length - 1)] }

/-! ### The transport layer's event stream (`main.py`, `event_generator`) -/

/-- An event yielded to the client by `event_generator`. -/
inductive GenEvent
  | runStarted
  | stateSnapshot
  | progress (d : ProgressDelta)
  | toolLogsReset
  | toolCallStart (id name : String)
  | toolCallArgs (id : String)
  | toolCallEnd (id : String)
  | textStart
  | textContent (delta : String)
  | textEnd
  | runFinished
  deriving DecidableEq

/-- The chunking of a text reply into ~100 streamed parts
(main.py lines 254-268). -/
def contentChunks (s : String) : List String :=
  let pl := max 1 (s.length / 100)
  let parts := (s.toList.toChunks pl).map String.mk
  if parts.length > 100 then parts.take 99 ++ [String.join (parts.drop 99)]
  else parts

/-- The final result events derived from the last message of the pipeline
output (main.py lines 201-298).  Branch A (a truthy `tool_calls` list)
streams tool-call start/args/end for `tool_calls[0]`; branch B streams a
text message, with the fallback content when the message content is falsy.
Nothing is emitted when the last message is not an assistant message. -/
def finalResultEvents (m : Message) : List GenEvent :=
  if m.role = "assistant" then
    match m.toolCalls with
    | some (tc :: _) =>
        [.toolCallStart tc.id tc.name, .toolCallArgs tc.id, .toolCallEnd tc.id]
    | _ =>
        [.textStart] ++
        (match m.content with
         | some c =>
             if c ≠ "" then (contentChunks c).map GenEvent.textContent
             else [.textContent "Something went wrong! Please try again."]
         | none => [.textContent "Something went wrong! Please try again."]) ++
        [.textEnd]
  else []

/-- The full outbound stream of one request (main.py lines 100-308).
`queued` is the ordered sequence of progress deltas the pipeline task
emitted; the drain loop (lines 179-188) forwards an event immediately
whenever the queue is non-empty and only breaks on a poll timeout with the
queue empty and the task finished, so every queued event is forwarded, in
FIFO order, before the `/tool_logs` reset that follows the loop. -/
def event_generator (queued : List ProgressDelta) (lastMsg : Message) :
    List GenEvent :=
  [.runStarted, .stateSnapshot] ++ queued.map .progress ++ [.toolLogsReset] ++
    finalResultEvents lastMsg ++ [.runFinished]

/-! ### Hypothesis predicates (decidable on concrete inputs) -/

/-- Every present price of a row is positive. -/
def pricesPosB (row : List (Option ℚ)) : Bool :=
  row.all fun po =>
    match po with
    | none => true
    | some p => decide (0 < p)

/-- Every present price of every row is positive. -/
def rowsPosB (rows : List (List (Option ℚ))) : Bool := rows.all pricesPosB

/-- Every present price of a row is nonzero. -/
def pricesNonzeroB (row : List (Option ℚ)) : Bool :=
  row.all fun po =>
    match po with
    | none => true
    | some p => decide (p ≠ 0)

/-- Every present price of every row is nonzero. -/
def rowsNonzeroB (rows : List (List (Option ℚ))) : Bool := rows.all pricesNonzeroB

/-- Every amount is non-negative. -/
def amountsNonnegB (l : List ℚ) : Bool := l.all fun a => decide (0 ≤ a)

/-- Every present price among the periodic visit items is positive. -/
def itemsPosB (its : List (String × String × Option ℚ)) : Bool :=
  its.all fun it =>
    match it.2.2 with
    | none => true
    | some p => decide (0 < p)

/-! ### Helper lemmas -/

theorem colPrice_mem {ts : List String} {ps : List (Option ℚ)} {x : String}
    {p : ℚ} (h : colPrice ts ps x = some p) : some p ∈ ps := by
  induction ts generalizing ps with
  | nil => simp [colPrice] at h
  | cons t ts ih =>
    cases ps with
    | nil => simp [colPrice] at h
    | cons q qs =>
      simp only [colPrice] at h
      split at h
      · exact h ▸ List.mem_cons_self _ _
      · exact List.mem_cons_of_mem _ (ih h)

theorem pricesPosB_elim {row : List (Option ℚ)} (h : pricesPosB row = true)
    {p : ℚ} (hm : some p ∈ row) : 0 < p := by
  have := (List.all_eq_true.mp h) _ hm
  simpa using this

theorem pricesNonzeroB_elim {row : List (Option ℚ)} (h : pricesNonzeroB row = true)
    {p : ℚ} (hm : some p ∈ row) : p ≠ 0 := by
  have := (List.all_eq_true.mp h) _ hm
  simpa using this

theorem rowsPosB_elim {rows : List (List (Option ℚ))} (h : rowsPosB rows = true)
    {row : List (Option ℚ)} (hm : row ∈ rows) : pricesPosB row = true :=
  (List.all_eq_true.mp h) _ hm

theorem rowsNonzeroB_elim {rows : List (List (Option ℚ))} (h : rowsNonzeroB rows = true)
    {row : List (Option ℚ)} (hm : row ∈ rows) : pricesNonzeroB row = true :=
  (List.all_eq_true.mp h) _ hm

theorem amountsNonnegB_elim {l : List ℚ} (h : amountsNonnegB l = true)
    {a : ℚ} (hm : a ∈ l) : 0 ≤ a := by
  have := (List.all_eq_true.mp h) _ hm
  simpa using this

/-- Python `a // p` buys at least one share when the allocation covers the
(positive) price. -/
theorem floorDiv_pos {a p : ℚ} (hp : 0 < p) (hle : p ≤ a) : 0 < ⌊a / p⌋ := by
  have : (1 : ℚ) ≤ a / p := (one_le_div hp).mpr hle
  exact_mod_cast Int.le_floor.mpr (by exact_mod_cast this)

/-- The cost `(a // p) * p` of a floor-division purchase never exceeds the
amount divided. -/
theorem floorDiv_mul_le {a p : ℚ} (hp : 0 < p) : (⌊a / p⌋ : ℚ) * p ≤ a := by
  have h1 : (⌊a / p⌋ : ℚ) ≤ a / p := Int.floor_le _
  calc (⌊a / p⌋ : ℚ) * p ≤ (a / p) * p := by
        exact mul_le_mul_of_nonneg_right h1 hp.le
    _ = a := div_mul_cancel₀ a hp.ne'

theorem floorDiv_nonneg {a p : ℚ} (hp : 0 < p) (ha : 0 ≤ a) : 0 ≤ ⌊a / p⌋ :=
  Int.floor_nonneg.mpr (div_nonneg ha hp.le)

theorem simTrace_length (f : SimState → α → SimState) (s : SimState)
    (l : List α) : (simTrace f s l).length = l.length + 1 := by
  induction l generalizing s with
  | nil => rfl
  | cons x xs ih => simp [simTrace, ih]

theorem simTrace_getD_zero (f : SimState → α → SimState) (s : SimState)
    (l : List α) (d : SimState) : (simTrace f s l).getD 0 d = s := by
  cases l <;> rfl

theorem simTrace_getD_succ (f : SimState → α → SimState) (s : SimState)
    (l : List α) (d : SimState) (da : α) {k : ℕ} (hk : k < l.length) :
    (simTrace f s l).getD (k + 1) d =
      f ((simTrace f s l).getD k d) (l.getD k da) := by
  induction l generalizing s k with
  | nil => simp at hk
  | cons x xs ih =>
    cases k with
    | zero =>
      have h0 := simTrace_getD_zero f (f s x) xs d
      simpa [simTrace] using h0
    | succ k =>
      have hk' : k < xs.length := by simpa using hk
      simp only [simTrace, List.getD_cons_succ]
      exact ih (f s x) hk'

theorem simTrace_getD_last (f : SimState → α → SimState) (s : SimState)
    (l : List α) (d : SimState) :
    (simTrace f s l).getD l.length d = l.foldl f s := by
  induction l generalizing s with
  | nil => rfl
  | cons x xs ih => simpa [simTrace] using ih (f s x)

theorem simTrace_invariant (f : SimState → α → SimState) (s : SimState)
    (l : List α) (P : SimState → Prop) (h0 : P s)
    (hstep : ∀ st x, x ∈ l → P st → P (f st x)) :
    ∀ st ∈ simTrace f s l, P st := by
  induction l generalizing s with
  | nil => simpa [simTrace] using h0
  | cons x xs ih =>
    intro st hst
    simp only [simTrace, List.mem_cons] at hst
    rcases hst with rfl | hst
    · exact h0
    · exact ih (f s x) (hstep s x (List.mem_cons_self _ _) h0)
        (fun st' x' hx' => hstep st' x' (List.mem_cons_of_mem _ hx')) st hst

theorem simTrace_getD_mem (f : SimState → α → SimState) (s : SimState)
    (l : List α) (d : SimState) {k : ℕ} (hk : k < l.length + 1) :
    (simTrace f s l).getD k d ∈ simTrace f s l := by
  have hlen : k < (simTrace f s l).length := by rw [simTrace_length]; exact hk
  rw [List.getD_eq_getElem _ _ hlen]
  exact List.getElem_mem _

/-- `(List.range n |>.zip l)[k] = (k, l[k])` for `k < l.length = n`. -/
theorem range_zip_getD {l : List String} {k : ℕ} (hk : k < l.length) :
    ((List.range l.length).zip l).getD k (0, "") = (k, l.getD k "") := by
  have hlen : k < ((List.range l.length).zip l).length := by
    simpa [List.length_zip] using hk
  rw [List.getD_eq_getElem _ _ hlen, List.getElem_zip]
  refine Prod.ext (by simp) ?_
  exact (List.getD_eq_getElem l "" hk).symm

theorem pricesPosB_nonzero {row : List (Option ℚ)} (h : pricesPosB row = true) :
    pricesNonzeroB row = true := by
  refine List.all_eq_true.mpr fun po hm => ?_
  cases po with
  | none => rfl
  | some p => simpa using (pricesPosB_elim h hm).ne'

/-- The items of the single-shot purchase round: `enumerate(tickers)`. -/
def ssItems (tickers : List String) : List (ℕ × String) :=
  (List.range tickers.length).zip tickers

/-- All intermediate states of the single-shot purchase round. -/
def ssTrace (tickers : List String) (amounts : List ℚ) (d0 : String)
    (row : List (Option ℚ)) (cash0 : ℚ) : List SimState :=
  simTrace (ssStep tickers amounts d0 row) (initState cash0) (ssItems tickers)

theorem ssItems_length (tickers : List String) :
    (ssItems tickers).length = tickers.length := by
  simp [ssItems]

theorem runSingleShot_eq_trace (tickers : List String) (amounts : List ℚ)
    (d0 : String) (row : List (Option ℚ)) (cash0 : ℚ) :
    runSingleShot tickers amounts d0 row cash0 =
      (ssTrace tickers amounts d0 row cash0).getD tickers.length (initState cash0) := by
  rw [ssTrace, ← ssItems_length tickers, simTrace_getD_last]
  rfl

/-- The claim's case analysis of one single-shot ticker between the state
before (`s`) and after (`s'`) it is processed. -/
def C1Step (tickers : List String) (amounts : List ℚ) (d0 : String)
    (row : List (Option ℚ)) (s s' : SimState) (idx : ℕ) (t : String) : Prop :=
  match colPrice tickers row t with
  | none =>
      s'.holdings = s.holdings ∧ s'.cash = s.cash ∧
      s'.addFundsNeeded = true ∧
      s'.addFundsDates = s.addFundsDates ++ [(d0, t, none, amounts.getD idx 0)] ∧
      s'.log = s.log ++ [.noData d0 t]
  | some p =>
      if s.cash ≥ amounts.getD idx 0 ∧ amounts.getD idx 0 ≥ p then
        s'.holdings t = s.holdings t + (⌊amounts.getD idx 0 / p⌋ : ℤ) ∧
        (∀ u, u ≠ t → s'.holdings u = s.holdings u) ∧
        s'.cash = s.cash - (⌊amounts.getD idx 0 / p⌋ : ℤ) * p ∧
        s'.addFundsNeeded = s.addFundsNeeded ∧
        s'.addFundsDates = s.addFundsDates ∧
        s'.log = s.log ++
          [.bought d0 t ⌊amounts.getD idx 0 / p⌋ p ((⌊amounts.getD idx 0 / p⌋ : ℤ) * p)]
      else
        s'.holdings = s.holdings ∧ s'.cash = s.cash ∧
        s'.addFundsNeeded = true ∧
        s'.addFundsDates = s.addFundsDates ++ [(d0, t, some p, s.cash)] ∧
        s'.log = s.log ++ [.notEnoughCash d0 t p s.cash]

theorem forall_mem_append_singleton {α : Type} {P : α → Prop} {L : List α}
    {x : α} (hL : ∀ e ∈ L, P e) (hx : P x) : ∀ e ∈ L ++ [x], P e := by
  intro e he
  rcases List.mem_append.mp he with h | h
  · exact hL e h
  · exact (List.mem_singleton.mp h) ▸ hx

theorem ssStep_char (tickers : List String) (amounts : List ℚ) (d0 : String)
    (row : List (Option ℚ)) (s : SimState) (idx : ℕ) (t : String)
    (herr : s.error = false)
    (hpos : ∀ p : ℚ, colPrice tickers row t = some p → 0 < p) :
    C1Step tickers amounts d0 row s (ssStep tickers amounts d0 row s (idx, t)) idx t := by
  cases hcol : colPrice tickers row t with
  | none =>
    simp only [C1Step, hcol, ssStep, herr, Bool.false_eq_true, if_false]
    refine ⟨?_, ?_, ?_, ?_, ?_⟩ <;> trivial
  | some p =>
    have hp : 0 < p := hpos p hcol
    simp only [C1Step, hcol, ssStep, herr, Bool.false_eq_true, if_false,
      hp.ne', ite_false]
    split_ifs with hcond hsh
    · refine ⟨?_, ?_, ?_, ?_, ?_, ?_⟩ <;>
        first
          | trivial
          | (intro u hu; simp [dupd, hu])
          | simp [dupd]
    · exact absurd (floorDiv_pos hp hcond.2) hsh
    · refine ⟨?_, ?_, ?_, ?_, ?_⟩ <;> trivial

theorem ssStep_error_preserved (tickers : List String) (amounts : List ℚ)
    (d0 : String) (row : List (Option ℚ)) (s : SimState) (x : ℕ × String)
    (herr : s.error = false) (hnz : pricesNonzeroB row = true) :
    (ssStep tickers amounts d0 row s x).error = false := by
  cases hcol : colPrice tickers row x.2 with
  | none => simp only [ssStep, herr, Bool.false_eq_true, if_false, hcol]
  | some p =>
    have hp : p ≠ 0 := pricesNonzeroB_elim hnz (colPrice_mem hcol)
    simp only [ssStep, herr, Bool.false_eq_true, if_false, hcol, hp, ite_false]
    split_ifs <;> rfl

theorem ssTrace_error (tickers : List String) (amounts : List ℚ) (d0 : String)
    (row : List (Option ℚ)) (cash0 : ℚ) (hnz : pricesNonzeroB row = true) :
    ∀ st ∈ ssTrace tickers amounts d0 row cash0, st.error = false := by
  exact simTrace_invariant _ _ _ (fun st => st.error = false) rfl
    (fun st x _ h => ssStep_error_preserved tickers amounts d0 row st x h hnz)

/-- All log lines and shortfall tuples of the single-shot round are tagged
with the first date. -/
theorem ssTrace_dates (tickers : List String) (amounts : List ℚ) (d0 : String)
    (row : List (Option ℚ)) (cash0 : ℚ) :
    ∀ st ∈ ssTrace tickers amounts d0 row cash0,
      (∀ e ∈ st.log, e.date = d0) ∧ ∀ sf ∈ st.addFundsDates, sf.1 = d0 := by
  refine simTrace_invariant _ _ _ _ ⟨by simp [initState], by simp [initState]⟩ ?_
  intro st x _ hP
  by_cases herr : st.error = true
  · simp only [ssStep, herr, if_true]
    exact hP
  · rw [Bool.not_eq_true] at herr
    cases hcol : colPrice tickers row x.2 with
    | none =>
      simp only [ssStep, herr, Bool.false_eq_true, if_false, hcol]
      exact ⟨forall_mem_append_singleton hP.1 rfl,
             forall_mem_append_singleton hP.2 rfl⟩
    | some p =>
      simp only [ssStep, herr, Bool.false_eq_true, if_false, hcol]
      split_ifs <;>
        first
          | exact hP
          | exact ⟨forall_mem_append_singleton hP.1 rfl, hP.2⟩
          | exact ⟨forall_mem_append_singleton hP.1 rfl,
                   forall_mem_append_singleton hP.2 rfl⟩

/-- The full single-shot claim: the per-ticker purchase case analysis along
the round, the fact that the final state is the end of that one round, and
that every log line / shortfall tuple carries the first date. -/
def SingleShotClaim (tickers : List String) (amounts : List ℚ) (d0 : String)
    (row : List (Option ℚ)) (cash0 : ℚ) : Prop :=
  (∀ k, k < tickers.length →
    C1Step tickers amounts d0 row
      ((ssTrace tickers amounts d0 row cash0).getD k (initState cash0))
      ((ssTrace tickers amounts d0 row cash0).getD (k + 1) (initState cash0))
      k (tickers.getD k "")) ∧
  runSingleShot tickers amounts d0 row cash0 =
    (ssTrace tickers amounts d0 row cash0).getD tickers.length (initState cash0) ∧
  (∀ e ∈ (runSingleShot tickers amounts d0 row cash0).log, e.date = d0) ∧
  (∀ sf ∈ (runSingleShot tickers amounts d0 row cash0).addFundsDates, sf.1 = d0)

/-- **C1.** For a single_shot simulation on a sorted non-empty price series
(whose first index entry is `d0`/`row`, the only entry the branch reads),
exactly one purchase round occurs, over `enumerate(tickers)` at the first
date: for each ticker with a valid (positive) price `p` and allocation `a`,
if `total_cash ≥ a` and `a ≥ p` then `⌊a/p⌋` shares are bought and the
running cash decreases by `shares * p`; otherwise no shares are bought, the
funds-insufficient flag is set and a shortfall tuple is recorded.  If the
price is missing, zero shares are bought, the flag is set and the shortfall
tuple `(date, ticker, NaN price, requested amount)` is recorded; since the
branch never touches any later row, no later purchase can occur for that
ticker.  Every log line and shortfall tuple carries the first date. -/
theorem c1_single_shot_round (tickers : List String) (amounts : List ℚ)
    (d0 : String) (row : List (Option ℚ)) (cash0 : ℚ)
    (hpos : pricesPosB row = true) :
    SingleShotClaim tickers amounts d0 row cash0 := by
  have hfin : runSingleShot tickers amounts d0 row cash0 ∈
      ssTrace tickers amounts d0 row cash0 := by
    rw [runSingleShot_eq_trace]
    unfold ssTrace
    refine simTrace_getD_mem _ _ _ _ ?_
    rw [ssItems_length]
    exact Nat.lt_succ_self _
  refine ⟨?_, runSingleShot_eq_trace tickers amounts d0 row cash0,
    (ssTrace_dates tickers amounts d0 row cash0 _ hfin).1,
    (ssTrace_dates tickers amounts d0 row cash0 _ hfin).2⟩
  intro k hk
  have hlen : k < (ssItems tickers).length := by
    rw [ssItems_length]; exact hk
  have hmem : (ssTrace tickers amounts d0 row cash0).getD k (initState cash0) ∈
      ssTrace tickers amounts d0 row cash0 := by
    unfold ssTrace
    exact simTrace_getD_mem _ _ _ _ (Nat.lt_succ_of_lt hlen)
  have herr := ssTrace_error tickers amounts d0 row cash0
    (pricesPosB_nonzero hpos) _ hmem
  have hstep : (ssTrace tickers amounts d0 row cash0).getD (k + 1) (initState cash0) =
      ssStep tickers amounts d0 row
        ((ssTrace tickers amounts d0 row cash0).getD k (initState cash0))
        ((ssItems tickers).getD k (0, "")) := by
    unfold ssTrace
    exact simTrace_getD_succ _ _ _ _ _ hlen
  have hitem : (ssItems tickers).getD k (0, "") = (k, tickers.getD k "") := by
    unfold ssItems
    exact range_zip_getD hk
  rw [hstep, hitem]
  exact ssStep_char tickers amounts d0 row _ k (tickers.getD k "") herr
    (fun p hc => pricesPosB_elim hpos (colPrice_mem hc))

/-- Witness for C1 at Scenario A: one ticker, 1000 allocated, price 100,
cash 1000. -/
theorem c1_single_shot_round_witness :
    pricesPosB [some (100 : ℚ)] = true ∧
    SingleShotClaim ["AAPL"] [1000] "2023-01-01" [some 100] 1000 :=
  ⟨by decide, c1_single_shot_round ["AAPL"] [1000] "2023-01-01" [some 100] 1000 (by decide)⟩

/-! ### C2: the periodic (DCA) branch -/

/-- All intermediate states of the periodic loop. -/
def dcaTrace (tickers : List String) (dates : List String)
    (rows : List (List (Option ℚ))) (cash0 : ℚ) : List SimState :=
  simTrace dcaStep (initState cash0) (dcaItems tickers dates rows)

theorem runDCA_eq_trace (tickers : List String) (amounts : List ℚ)
    (dates : List String) (rows : List (List (Option ℚ))) (cash0 : ℚ) :
    runDCA tickers amounts dates rows cash0 =
      (dcaTrace tickers dates rows cash0).getD
        (dcaItems tickers dates rows).length (initState cash0) := by
  rw [dcaTrace, simTrace_getD_last]
  rfl

/-- The claim's case analysis of one periodic `(date, ticker)` visit
between the state before (`s`) and after (`s'`). -/
def C2Step (s s' : SimState) (d t : String) (po : Option ℚ) : Prop :=
  match po with
  | none => s' = s
  | some p =>
      if s.cash ≥ p then
        s'.holdings t = s.holdings t + (⌊s.cash / p⌋ : ℤ) ∧
        (∀ u, u ≠ t → s'.holdings u = s.holdings u) ∧
        s'.cash = s.cash - (⌊s.cash / p⌋ : ℤ) * p ∧
        s'.addFundsNeeded = s.addFundsNeeded ∧
        s'.addFundsDates = s.addFundsDates ∧
        s'.log = s.log ++ [.bought d t ⌊s.cash / p⌋ p ((⌊s.cash / p⌋ : ℤ) * p)]
      else
        s'.holdings = s.holdings ∧ s'.cash = s.cash ∧
        s'.addFundsNeeded = true ∧
        s'.addFundsDates = s.addFundsDates ++ [(d, t, some p, s.cash)] ∧
        s'.log = s.log ++ [.notEnoughCash d t p s.cash]

theorem dcaStep_char (s : SimState) (d t : String) (po : Option ℚ)
    (herr : s.error = false) (hpos : ∀ p : ℚ, po = some p → 0 < p) :
    C2Step s (dcaStep s (d, t, po)) d t po := by
  cases po with
  | none =>
    simp only [C2Step, dcaStep, herr, Bool.false_eq_true, if_false]
  | some p =>
    have hp : 0 < p := hpos p rfl
    simp only [C2Step, dcaStep, herr, Bool.false_eq_true, if_false,
      hp.ne', ite_false]
    split_ifs with hcond hsh
    · refine ⟨?_, ?_, ?_, ?_, ?_, ?_⟩ <;>
        first
          | trivial
          | (intro u hu; simp [dupd, hu])
          | simp [dupd]
    · exact absurd (floorDiv_pos hp hcond) hsh
    · refine ⟨?_, ?_, ?_, ?_, ?_⟩ <;> trivial

theorem dcaStep_error_preserved (s : SimState) (x : String × String × Option ℚ)
    (herr : s.error = false) (hnz : ∀ p : ℚ, x.2.2 = some p → p ≠ 0) :
    (dcaStep s x).error = false := by
  cases hx : x.2.2 with
  | none =>
    show (dcaStep s (x.1, x.2.1, x.2.2)).error = false
    simp only [hx, dcaStep, herr, Bool.false_eq_true, if_false]
  | some p =>
    have hp : p ≠ 0 := hnz p hx
    show (dcaStep s (x.1, x.2.1, x.2.2)).error = false
    simp only [hx, dcaStep, herr, Bool.false_eq_true, if_false, hp, ite_false]
    split_ifs <;> first | rfl | exact herr

theorem itemsPosB_elim {its : List (String × String × Option ℚ)}
    (h : itemsPosB its = true) {x : String × String × Option ℚ} (hm : x ∈ its)
    {p : ℚ} (hp : x.2.2 = some p) : 0 < p := by
  have := (List.all_eq_true.mp h) _ hm
  rw [hp] at this
  simpa using this

theorem dcaTrace_error (tickers : List String) (dates : List String)
    (rows : List (List (Option ℚ))) (cash0 : ℚ)
    (hpos : itemsPosB (dcaItems tickers dates rows) = true) :
    ∀ st ∈ dcaTrace tickers dates rows cash0, st.error = false := by
  exact simTrace_invariant _ _ _ (fun st => st.error = false) rfl
    (fun st x hx h => dcaStep_error_preserved st x h
      (fun p hp => (itemsPosB_elim hpos hx hp).ne'))

/-- The full periodic claim: dates in index order and tickers in list order
(the order of `dcaItems`), the per-visit case analysis along the loop with
no early termination (every item has its characterized step), the final
state being the end of the whole loop, and the per-ticker allocation
amounts never being read. -/
def DCAClaim (tickers : List String) (amounts : List ℚ) (dates : List String)
    (rows : List (List (Option ℚ))) (cash0 : ℚ) : Prop :=
  (∀ k, k < (dcaItems tickers dates rows).length →
    C2Step
      ((dcaTrace tickers dates rows cash0).getD k (initState cash0))
      ((dcaTrace tickers dates rows cash0).getD (k + 1) (initState cash0))
      ((dcaItems tickers dates rows).getD k ("", "", none)).1
      ((dcaItems tickers dates rows).getD k ("", "", none)).2.1
      ((dcaItems tickers dates rows).getD k ("", "", none)).2.2) ∧
  runDCA tickers amounts dates rows cash0 =
    (dcaTrace tickers dates rows cash0).getD
      (dcaItems tickers dates rows).length (initState cash0) ∧
  (∀ amounts' : List ℚ,
    runDCA tickers amounts' dates rows cash0 =
      runDCA tickers amounts dates rows cash0)

/-- **C2.** For a periodic (non-single_shot) simulation, the loop visits
every date of the sorted index in order and, within a date, every ticker in
list order; at each visit with a valid (positive) price `p`: if
`total_cash ≥ p`, `⌊total_cash / p⌋` shares are bought with the entire
remaining cash pool and cash decreases by `shares * p`; if
`total_cash < p`, the funds-insufficient flag is set, the shortfall tuple
`(date, ticker, price, available cash)` is recorded, and the loop
continues.  Missing-price visits leave the state unchanged.  The per-ticker
allocation amounts are never used. -/
theorem c2_periodic_allocation (tickers : List String) (amounts : List ℚ)
    (dates : List String) (rows : List (List (Option ℚ))) (cash0 : ℚ)
    (hpos : itemsPosB (dcaItems tickers dates rows) = true) :
    DCAClaim tickers amounts dates rows cash0 := by
  refine ⟨?_, runDCA_eq_trace tickers amounts dates rows cash0,
    fun amounts' => rfl⟩
  intro k hk
  have hmem : (dcaTrace tickers dates rows cash0).getD k (initState cash0) ∈
      dcaTrace tickers dates rows cash0 := by
    unfold dcaTrace
    exact simTrace_getD_mem _ _ _ _ (Nat.lt_succ_of_lt hk)
  have herr := dcaTrace_error tickers dates rows cash0 hpos _ hmem
  have hstep : (dcaTrace tickers dates rows cash0).getD (k + 1) (initState cash0) =
      dcaStep ((dcaTrace tickers dates rows cash0).getD k (initState cash0))
        ((dcaItems tickers dates rows).getD k ("", "", none)) := by
    unfold dcaTrace
    exact simTrace_getD_succ _ _ _ _ _ hk
  have hitmem : (dcaItems tickers dates rows).getD k ("", "", none) ∈
      dcaItems tickers dates rows := by
    rw [List.getD_eq_getElem _ _ hk]
    exact List.getElem_mem _
  rw [hstep]
  have := dcaStep_char
    ((dcaTrace tickers dates rows cash0).getD k (initState cash0))
    ((dcaItems tickers dates rows).getD k ("", "", none)).1
    ((dcaItems tickers dates rows).getD k ("", "", none)).2.1
    ((dcaItems tickers dates rows).getD k ("", "", none)).2.2
    herr (fun p hp => itemsPosB_elim hpos hitmem hp)
  exact this

/-- Witness for C2: one ticker over two dates, prices 3 then 1, cash 10:
the greedy pool-wide rule buys 3 then 1 shares. -/
theorem c2_periodic_allocation_witness :
    itemsPosB (dcaItems ["A"] ["d0", "d1"] [[some 3], [some 1]]) = true ∧
    DCAClaim ["A"] [5] ["d0", "d1"] [[some 3], [some 1]] 10 :=
  ⟨by decide, c2_periodic_allocation ["A"] [5] ["d0", "d1"] [[some 3], [some 1]] 10 (by decide)⟩

/-! ### C3: running-balance invariants -/

/-- The running cash balance is non-negative and every holding is a
non-negative whole number of shares. -/
def CashHoldingsInv (st : SimState) : Prop :=
  0 ≤ st.cash ∧ ∀ t, ∃ n : ℕ, st.holdings t = n

theorem amounts_getD_nonneg {amounts : List ℚ}
    (h : amountsNonnegB amounts = true) (idx : ℕ) : 0 ≤ amounts.getD idx 0 := by
  by_cases hidx : idx < amounts.length
  · rw [List.getD_eq_getElem _ _ hidx]
    exact amountsNonnegB_elim h (List.getElem_mem _)
  · rw [List.getD_eq_default _ _ (Nat.le_of_not_lt hidx)]

theorem C1Step_preserves_inv {tickers : List String} {amounts : List ℚ}
    {d0 : String} {row : List (Option ℚ)} {s s' : SimState} {idx : ℕ}
    {t : String} (hC : C1Step tickers amounts d0 row s s' idx t)
    (hamt : amountsNonnegB amounts = true) (hpos : pricesPosB row = true)
    (hinv : CashHoldingsInv s) : CashHoldingsInv s' := by
  cases hcol : colPrice tickers row t with
  | none =>
    simp only [C1Step, hcol] at hC
    exact ⟨hC.2.1 ▸ hinv.1, fun u => hC.1 ▸ hinv.2 u⟩
  | some p =>
    have hp : 0 < p := pricesPosB_elim hpos (colPrice_mem hcol)
    simp only [C1Step, hcol] at hC
    split_ifs at hC with hcond
    · have ha : 0 ≤ amounts.getD idx 0 := amounts_getD_nonneg hamt idx
      have hfl : 0 ≤ ⌊amounts.getD idx 0 / p⌋ := floorDiv_nonneg hp ha
      constructor
      · rw [hC.2.2.1]
        have hcost : (⌊amounts.getD idx 0 / p⌋ : ℚ) * p ≤ amounts.getD idx 0 :=
          floorDiv_mul_le hp
        have := hcond.1
        linarith
      · intro u
        by_cases hu : u = t
        · subst hu
          obtain ⟨n, hn⟩ := hinv.2 u
          refine ⟨n + ⌊amounts.getD idx 0 / p⌋.toNat, ?_⟩
          rw [hC.1, hn, Nat.cast_add]
          congr 1
          exact_mod_cast (Int.toNat_of_nonneg hfl).symm
        · obtain ⟨n, hn⟩ := hinv.2 u
          exact ⟨n, (hC.2.1 u hu) ▸ hn⟩
    · exact ⟨hC.2.1 ▸ hinv.1, fun u => hC.1 ▸ hinv.2 u⟩

theorem C2Step_preserves_inv {s s' : SimState} {d t : String} {po : Option ℚ}
    (hC : C2Step s s' d t po) (hpos : ∀ p : ℚ, po = some p → 0 < p)
    (hinv : CashHoldingsInv s) : CashHoldingsInv s' := by
  cases po with
  | none =>
    simp only [C2Step] at hC
    exact hC ▸ hinv
  | some p =>
    have hp : 0 < p := hpos p rfl
    simp only [C2Step] at hC
    split_ifs at hC with hcond
    · have hfl : 0 ≤ ⌊s.cash / p⌋ := floorDiv_nonneg hp hinv.1
      constructor
      · rw [hC.2.2.1]
        have hcost : (⌊s.cash / p⌋ : ℚ) * p ≤ s.cash := floorDiv_mul_le hp
        linarith
      · intro u
        by_cases hu : u = t
        · subst hu
          obtain ⟨n, hn⟩ := hinv.2 u
          refine ⟨n + ⌊s.cash / p⌋.toNat, ?_⟩
          rw [hC.1, hn, Nat.cast_add]
          congr 1
          exact_mod_cast (Int.toNat_of_nonneg hfl).symm
        · obtain ⟨n, hn⟩ := hinv.2 u
          exact ⟨n, (hC.2.1 u hu) ▸ hn⟩
    · exact ⟨hC.2.1 ▸ hinv.1, fun u => hC.1 ▸ hinv.2 u⟩

theorem ssTrace_inv (tickers : List String) (amounts : List ℚ) (d0 : String)
    (row : List (Option ℚ)) (cash0 : ℚ) (hcash : 0 ≤ cash0)
    (hamt : amountsNonnegB amounts = true) (hpos : pricesPosB row = true) :
    ∀ st ∈ ssTrace tickers amounts d0 row cash0,
      st.error = false ∧ CashHoldingsInv st := by
  refine simTrace_invariant _ _ _ _ ⟨rfl, hcash, fun t => ⟨0, rfl⟩⟩ ?_
  intro st x _ hP
  refine ⟨ssStep_error_preserved tickers amounts d0 row st x hP.1
    (pricesPosB_nonzero hpos), ?_⟩
  have hchar := ssStep_char tickers amounts d0 row st x.1 x.2 hP.1
    (fun p hc => pricesPosB_elim hpos (colPrice_mem hc))
  exact C1Step_preserves_inv hchar hamt hpos hP.2

theorem dcaTrace_inv (tickers : List String) (dates : List String)
    (rows : List (List (Option ℚ))) (cash0 : ℚ) (hcash : 0 ≤ cash0)
    (hpos : itemsPosB (dcaItems tickers dates rows) = true) :
    ∀ st ∈ dcaTrace tickers dates rows cash0,
      st.error = false ∧ CashHoldingsInv st := by
  refine simTrace_invariant _ _ _ _ ⟨rfl, hcash, fun t => ⟨0, rfl⟩⟩ ?_
  intro st x hx hP
  refine ⟨dcaStep_error_preserved st x hP.1
    (fun p hp => (itemsPosB_elim hpos hx hp).ne'), ?_⟩
  have hchar := dcaStep_char st x.1 x.2.1 x.2.2 hP.1
    (fun p hp => itemsPosB_elim hpos hx hp)
  exact C2Step_preserves_inv hchar (fun p hp => itemsPosB_elim hpos hx hp) hP.2

/-- The bundled invariants claim: for both strategies the cash in every
intermediate state is non-negative and all holdings are whole non-negative
share counts; each step's spend (cash before minus cash after) is at most
the cash available before the step (no look-ahead spending); and the
single-shot step for ticker `k` increases that ticker's holdings by at most
`⌊allocated/price⌋` (by zero when the price is missing). -/
def InvariantsClaim (tickers : List String) (amounts : List ℚ) (d0 : String)
    (row : List (Option ℚ)) (dates : List String)
    (rows : List (List (Option ℚ))) (cash0 : ℚ) : Prop :=
  (∀ st ∈ ssTrace tickers amounts d0 row cash0, CashHoldingsInv st) ∧
  (∀ st ∈ dcaTrace tickers dates rows cash0, CashHoldingsInv st) ∧
  (∀ k, k < tickers.length →
    ((ssTrace tickers amounts d0 row cash0).getD k (initState cash0)).cash -
      ((ssTrace tickers amounts d0 row cash0).getD (k + 1) (initState cash0)).cash ≤
      ((ssTrace tickers amounts d0 row cash0).getD k (initState cash0)).cash) ∧
  (∀ k, k < (dcaItems tickers dates rows).length →
    ((dcaTrace tickers dates rows cash0).getD k (initState cash0)).cash -
      ((dcaTrace tickers dates rows cash0).getD (k + 1) (initState cash0)).cash ≤
      ((dcaTrace tickers dates rows cash0).getD k (initState cash0)).cash) ∧
  (∀ k, k < tickers.length →
    ((ssTrace tickers amounts d0 row cash0).getD (k + 1) (initState cash0)).holdings
        (tickers.getD k "") ≤
      ((ssTrace tickers amounts d0 row cash0).getD k (initState cash0)).holdings
        (tickers.getD k "") +
      (match colPrice tickers row (tickers.getD k "") with
       | some p => ((⌊amounts.getD k 0 / p⌋ : ℤ) : ℚ)
       | none => 0))

/-- **C3.** With non-negative starting cash, non-negative allocation
amounts and positive valid prices, both strategies keep the running cash
non-negative, never spend more at a step than the cash available at that
moment, keep all holdings non-negative whole share counts, and a
single-shot purchase never buys more than `⌊allocated/price⌋` shares. -/
theorem c3_simulation_invariants (tickers : List String) (amounts : List ℚ)
    (d0 : String) (row : List (Option ℚ)) (dates : List String)
    (rows : List (List (Option ℚ))) (cash0 : ℚ) (hcash : 0 ≤ cash0)
    (hamt : amountsNonnegB amounts = true) (hposr : pricesPosB row = true)
    (hposi : itemsPosB (dcaItems tickers dates rows) = true) :
    InvariantsClaim tickers amounts d0 row dates rows cash0 := by
  have hss := ssTrace_inv tickers amounts d0 row cash0 hcash hamt hposr
  have hdca := dcaTrace_inv tickers dates rows cash0 hcash hposi
  refine ⟨fun st hst => (hss st hst).2, fun st hst => (hdca st hst).2, ?_, ?_, ?_⟩
  · intro k hk
    have hlen : k < (ssItems tickers).length := by rw [ssItems_length]; exact hk
    have hmem : (ssTrace tickers amounts d0 row cash0).getD (k + 1) (initState cash0) ∈
        ssTrace tickers amounts d0 row cash0 := by
      unfold ssTrace
      exact simTrace_getD_mem _ _ _ _ (Nat.succ_lt_succ hlen)
    have h0 := (hss _ hmem).2.1
    linarith
  · intro k hk
    have hmem : (dcaTrace tickers dates rows cash0).getD (k + 1) (initState cash0) ∈
        dcaTrace tickers dates rows cash0 := by
      unfold dcaTrace
      exact simTrace_getD_mem _ _ _ _ (Nat.succ_lt_succ hk)
    have h0 := (hdca _ hmem).2.1
    linarith
  · intro k hk
    have hlen : k < (ssItems tickers).length := by rw [ssItems_length]; exact hk
    have hmem : (ssTrace tickers amounts d0 row cash0).getD k (initState cash0) ∈
        ssTrace tickers amounts d0 row cash0 := by
      unfold ssTrace
      exact simTrace_getD_mem _ _ _ _ (Nat.lt_succ_of_lt hlen)
    have herr := (hss _ hmem).1
    have hstep : (ssTrace tickers amounts d0 row cash0).getD (k + 1) (initState cash0) =
        ssStep tickers amounts d0 row
          ((ssTrace tickers amounts d0 row cash0).getD k (initState cash0))
          ((ssItems tickers).getD k (0, "")) := by
      unfold ssTrace
      exact simTrace_getD_succ _ _ _ _ _ hlen
    have hitem : (ssItems tickers).getD k (0, "") = (k, tickers.getD k "") := by
      unfold ssItems
      exact range_zip_getD hk
    rw [hstep, hitem]
    have hchar := ssStep_char tickers amounts d0 row _ k (tickers.getD k "") herr
      (fun p hc => pricesPosB_elim hposr (colPrice_mem hc))
    cases hcol : colPrice tickers row (tickers.getD k "") with
    | none =>
      simp only [C1Step, hcol] at hchar
      rw [congrFun hchar.1 (tickers.getD k "")]
      simp
    | some p =>
      have hp : 0 < p := pricesPosB_elim hposr (colPrice_mem hcol)
      simp only [C1Step, hcol] at hchar
      split_ifs at hchar with hcond
      · exact le_of_eq hchar.1
      · rw [congrFun hchar.1 (tickers.getD k "")]
        have hfl : 0 ≤ ⌊amounts.getD k 0 / p⌋ :=
          floorDiv_nonneg hp (amounts_getD_nonneg hamt k)
        have : (0 : ℚ) ≤ (⌊amounts.getD k 0 / p⌋ : ℚ) := by exact_mod_cast hfl
        linarith

/-- Witness for C3 at a small two-strategy instance. -/
theorem c3_simulation_invariants_witness :
    (0 : ℚ) ≤ 10 ∧ amountsNonnegB [5] = true ∧
    pricesPosB [some (3 : ℚ)] = true ∧
    itemsPosB (dcaItems ["A"] ["d0", "d1"] [[some 3], [some 1]]) = true ∧
    InvariantsClaim ["A"] [5] "d0" [some 3] ["d0", "d1"] [[some 3], [some 1]] 10 :=
  ⟨by decide, by decide, by decide, by decide,
   c3_simulation_invariants ["A"] [5] "d0" [some 3] ["d0", "d1"]
     [[some 3], [some 1]] 10 (by decide) (by decide) (by decide) (by decide)⟩

/-! ### C4: the performance time series -/

/-- Processing of one whole date of the periodic loop (all tickers in
order), used to reconstruct the holdings as they stood after each date. -/
def dcaDateStep (tickers : List String) (s : SimState)
    (dr : String × List (Option ℚ)) : SimState :=
  (tickers.map fun t => (dr.1, t, colPrice tickers dr.2 t)).foldl dcaStep s

/-- Holdings trace by date of the periodic loop: entry `k + 1` is the state
after processing date `k`. -/
def dcaDateTrace (tickers : List String) (dates : List String)
    (rows : List (List (Option ℚ))) (cash0 : ℚ) : List SimState :=
  simTrace (dcaDateStep tickers) (initState cash0) (dates.zip rows)

/-- The portfolio value at date `k` as the claim words it ("holdings at
that point in the simulation"): valued with the holdings after processing
date `k` of a periodic simulation.  This definition follows the claim's
words and is compared against `performanceData`, which the source computes
from a never-updated copy of the final holdings. -/
def portValueAtPointSpec (tickers : List String) (dates : List String)
    (rows : List (List (Option ℚ))) (cash0 : ℚ) (k : ℕ) : ℚ :=
  portValueAt tickers (rows.getD k [])
    ((dcaDateTrace tickers dates rows cash0).getD (k + 1) (initState cash0)).holdings

/-- **C4 counterexample.** One ticker, periodic, prices 3 then 1, cash 10:
the code values the first date with the final holdings (4 shares, value 12)
while the claim's "holdings at that point" (3 shares after the first date)
gives 9. -/
theorem c4_perf_counterexample :
    ((performanceData ["A"] ["d0", "d1"] [[some 3], [some 1]] [none, none]
        (runDCA ["A"] [5] ["d0", "d1"] [[some 3], [some 1]] 10).holdings
        (some 0) (some 0)).getD 0 ⟨"", none, none⟩).portfolio ≠
      some (portValueAtPointSpec ["A"] ["d0", "d1"] [[some 3], [some 1]] 10 0) := by
  have h1 : ((performanceData ["A"] ["d0", "d1"] [[some 3], [some 1]] [none, none]
      (runDCA ["A"] [5] ["d0", "d1"] [[some 3], [some 1]] 10).holdings
      (some 0) (some 0)).getD 0 ⟨"", none, none⟩).portfolio = some 12 := by
    with_unfolding_all rfl
  have h2 : portValueAtPointSpec ["A"] ["d0", "d1"] [[some 3], [some 1]] 10 0 = 9 := by
    with_unfolding_all rfl
  rw [h1, h2]
  intro h
  have h12 := Option.some.inj h
  norm_num at h12

theorem portValue_fold_eq (tickers : List String) (row : List (Option ℚ))
    (holdings : String → ℚ) (l : List String) (acc : ℚ) :
    l.foldl
      (fun acc t =>
        match colPrice tickers row t with
        | some p => acc + holdings t * p
        | none => acc) acc =
      acc + (l.filterMap fun t =>
        (colPrice tickers row t).map fun p => holdings t * p).sum := by
  induction l generalizing acc with
  | nil => simp
  | cons t l ih =>
    cases hcol : colPrice tickers row t with
    | none => simp [List.foldl_cons, hcol, ih]
    | some p => simp [List.foldl_cons, hcol, ih, add_assoc]

/-- `portValueAt` is the sum of `holdings[t] * price` over the tickers with
a valid price at the date. -/
theorem portValueAt_eq_sum (tickers : List String) (row : List (Option ℚ))
    (holdings : String → ℚ) :
    portValueAt tickers row holdings =
      (tickers.filterMap fun t =>
        (colPrice tickers row t).map fun p => holdings t * p).sum := by
  have := portValue_fold_eq tickers row holdings tickers 0
  simpa [portValueAt] using this

theorem zip3_getD {dates : List String} {rows : List (List (Option ℚ))}
    {spy : List (Option ℚ)} (hr : rows.length = dates.length)
    (hs : spy.length = dates.length) {k : ℕ} (hk : k < dates.length) :
    (dates.zip (rows.zip spy)).getD k ("", [], none) =
      (dates.getD k "", rows.getD k [], spy.getD k none) := by
  have hk2 : k < (rows.zip spy).length := by
    rw [List.length_zip, hr, hs]
    simpa using hk
  have hk1 : k < (dates.zip (rows.zip spy)).length := by
    rw [List.length_zip]
    exact lt_min hk hk2
  rw [List.getD_eq_getElem _ _ hk1, List.getElem_zip, List.getElem_zip]
  refine Prod.ext ?_ (Prod.ext ?_ ?_) <;> simp only []
  · exact (List.getD_eq_getElem dates "" hk).symm
  · exact (List.getD_eq_getElem rows [] (hr ▸ hk)).symm
  · exact (List.getD_eq_getElem spy none (hs ▸ hk)).symm

/-- The amended performance-series claim: one point per date carrying just
that date's label; the portfolio value of a point is the sum of
`final holdings × price` over the tickers with a valid price at that date
(cash excluded); the benchmark value is `None` exactly when the benchmark
price at the date is missing, else `shares × price + residual cash`.  The
benchmark series is the `spy` field of the same point list, so it has the
same length and date index as the portfolio series by construction. -/
def PerfSeriesClaim (tickers : List String) (dates : List String)
    (rows : List (List (Option ℚ))) (spy : List (Option ℚ))
    (holdings : String → ℚ) (spyShares spyCash : Option ℚ) : Prop :=
  (performanceData tickers dates rows spy holdings spyShares spyCash).length =
      dates.length ∧
  (performanceData tickers dates rows spy holdings spyShares spyCash).map
      PerfPoint.date = dates ∧
  ∀ k, k < dates.length →
    ((performanceData tickers dates rows spy holdings spyShares
        spyCash).getD k ⟨"", none, none⟩).portfolio =
      some ((tickers.filterMap fun t =>
        (colPrice tickers (rows.getD k []) t).map fun p =>
          holdings t * p).sum) ∧
    ((performanceData tickers dates rows spy holdings spyShares
        spyCash).getD k ⟨"", none, none⟩).spy =
      (match spy.getD k none with
       | none => none
       | some p => optAdd (optMul spyShares (some p)) spyCash)

/-- **C4 (amended).** The performance series has exactly one point per date
of the index; each point's portfolio value is the sum over tickers with a
valid price at that date of final holdings times price, with cash excluded;
each point's benchmark value is `shares × price + residual benchmark cash`,
and `None` when the benchmark price at that date is missing. -/
theorem c4_performance_series (tickers : List String) (dates : List String)
    (rows : List (List (Option ℚ))) (spy : List (Option ℚ))
    (holdings : String → ℚ) (spyShares spyCash : Option ℚ)
    (hr : rows.length = dates.length) (hs : spy.length = dates.length) :
    PerfSeriesClaim tickers dates rows spy holdings spyShares spyCash := by
  have hlenzip : (dates.zip (rows.zip spy)).length = dates.length := by
    rw [List.length_zip, List.length_zip, hr, hs]
    simp
  refine ⟨?_, ?_, ?_⟩
  · rw [performanceData, List.length_map, hlenzip]
  · rw [performanceData]
    have : ∀ (ds : List String) (rs : List (List (Option ℚ)))
        (sp : List (Option ℚ)), rs.length = ds.length → sp.length = ds.length →
        ((ds.zip (rs.zip sp)).map fun x =>
          (⟨x.1, some (portValueAt tickers x.2.1 holdings),
            match x.2.2 with
            | none => none
            | some p => optAdd (optMul spyShares (some p)) spyCash⟩ : PerfPoint)).map
          PerfPoint.date = ds := by
      intro ds
      induction ds with
      | nil => intro rs sp _ _; simp
      | cons d ds ih =>
        intro rs sp hr' hs'
        cases rs with
        | nil => simp at hr'
        | cons r rs =>
          cases sp with
          | nil => simp at hs'
          | cons q sp =>
            simp only [List.zip_cons_cons, List.map_cons]
            rw [ih rs sp (by simpa using hr') (by simpa using hs')]
    exact this dates rows spy hr hs
  · intro k hk
    have hk1 : k < (dates.zip (rows.zip spy)).length := by rw [hlenzip]; exact hk
    have hgetD : (performanceData tickers dates rows spy holdings spyShares
        spyCash).getD k ⟨"", none, none⟩ =
        (⟨(dates.getD k "", rows.getD k [], spy.getD k none).1,
          some (portValueAt tickers
            (dates.getD k "", rows.getD k [], spy.getD k none).2.1 holdings),
          match (dates.getD k "", rows.getD k [], spy.getD k none).2.2 with
          | none => none
          | some p => optAdd (optMul spyShares (some p)) spyCash⟩ : PerfPoint) := by
      rw [performanceData]
      have hklen : k < ((dates.zip (rows.zip spy)).map fun x =>
          (⟨x.1, some (portValueAt tickers x.2.1 holdings),
            match x.2.2 with
            | none => none
            | some p => optAdd (optMul spyShares (some p)) spyCash⟩ : PerfPoint)).length := by
        rw [List.length_map]
        exact hk1
      rw [List.getD_eq_getElem _ _ hklen, List.getElem_map,
        ← List.getD_eq_getElem _ ("", [], none) hk1, zip3_getD hr hs hk]
    rw [hgetD]
    exact ⟨by rw [portValueAt_eq_sum], rfl⟩

/-- Witness for the amended C4 at the counterexample's input. -/
theorem c4_performance_series_witness :
    ([[some 3], [some 1]] : List (List (Option ℚ))).length =
        (["d0", "d1"] : List String).length ∧
    ([none, none] : List (Option ℚ)).length = (["d0", "d1"] : List String).length ∧
    PerfSeriesClaim ["A"] ["d0", "d1"] [[some 3], [some 1]] [none, none]
      (runDCA ["A"] [5] ["d0", "d1"] [[some 3], [some 1]] 10).holdings
      (some 0) (some 0) :=
  ⟨by decide, by decide,
   c4_performance_series ["A"] ["d0", "d1"] [[some 3], [some 1]] [none, none]
     (runDCA ["A"] [5] ["d0", "d1"] [[some 3], [some 1]] 10).holdings
     (some 0) (some 0) (by decide) (by decide)⟩

/-! ### C5: division by zero -/

/-- **C5 counterexample.** A zero price is *not* skipped: with price `0.0`,
allocation `0` and cash `0` the purchase condition holds and
`allocated // price` (resp. `total_cash // price`) raises
`ZeroDivisionError`, modelled by the `error` flag. -/
theorem c5_div_by_zero_counterexample :
    (runSingleShot ["A"] [0] "d0" [some 0] 0).error = true ∧
    (runDCA ["A"] [0] ["d0"] [[some 0]] 0).error = true :=
  ⟨by with_unfolding_all rfl, by with_unfolding_all rfl⟩

/-- Every present price among the periodic visit items is nonzero. -/
def itemsNonzeroB (its : List (String × String × Option ℚ)) : Bool :=
  its.all fun it =>
    match it.2.2 with
    | none => true
    | some p => decide (p ≠ 0)

theorem itemsNonzeroB_elim {its : List (String × String × Option ℚ)}
    (h : itemsNonzeroB its = true) {x : String × String × Option ℚ} (hm : x ∈ its)
    {p : ℚ} (hp : x.2.2 = some p) : p ≠ 0 := by
  have := (List.all_eq_true.mp h) _ hm
  rw [hp] at this
  simpa using this

theorem dcaTrace_error_nz (tickers : List String) (dates : List String)
    (rows : List (List (Option ℚ))) (cash0 : ℚ)
    (hnz : itemsNonzeroB (dcaItems tickers dates rows) = true) :
    ∀ st ∈ dcaTrace tickers dates rows cash0, st.error = false := by
  exact simTrace_invariant _ _ _ (fun st => st.error = false) rfl
    (fun st x hx h => dcaStep_error_preserved st x h
      (fun p hp => itemsNonzeroB_elim hnz hx hp))

theorem summaryStep_untouched (tickers : List String) (lastRow : List (Option ℚ))
    (holdings : String → ℚ) (investedD : String → Option ℚ)
    (totalInvested : Option ℚ) (acc : SummaryStats) (l : List String)
    (t : String) (ht : t ∉ l) :
    ((l.foldl (summaryStep tickers lastRow holdings investedD totalInvested)
        acc).percentAllocationPerStock t = acc.percentAllocationPerStock t) ∧
    ((l.foldl (summaryStep tickers lastRow holdings investedD totalInvested)
        acc).percentReturnPerStock t = acc.percentReturnPerStock t) := by
  induction l generalizing acc with
  | nil => exact ⟨rfl, rfl⟩
  | cons x xs ih =>
    have hx : t ≠ x := fun h => ht (h ▸ List.mem_cons_self _ _)
    have hxs : t ∉ xs := fun h => ht (List.mem_cons_of_mem _ h)
    rw [List.foldl_cons]
    refine ⟨?_, ?_⟩
    · rw [(ih _ hxs).1]
      simp [summaryStep, dupdO, hx]
    · rw [(ih _ hxs).2]
      simp [summaryStep, dupdO, hx]

theorem summary_fold_alloc_zero (tickers : List String)
    (lastRow : List (Option ℚ)) (holdings : String → ℚ)
    (investedD : String → Option ℚ) (acc : SummaryStats) (l : List String)
    (t : String) (ht : t ∈ l) :
    (l.foldl (summaryStep tickers lastRow holdings investedD (some 0))
        acc).percentAllocationPerStock t = some 0 := by
  induction l generalizing acc with
  | nil => simp at ht
  | cons x xs ih =>
    rw [List.foldl_cons]
    by_cases hxs : t ∈ xs
    · exact ih _ hxs
    · have hx : t = x := by
        rcases List.mem_cons.mp ht with h | h
        · exact h
        · exact absurd h hxs
      subst hx
      rw [(summaryStep_untouched tickers lastRow holdings investedD (some 0)
        _ xs t hxs).1]
      simp [summaryStep, dupdO, pyGtO]

theorem summary_fold_return_zero (tickers : List String)
    (lastRow : List (Option ℚ)) (holdings : String → ℚ)
    (investedD : String → Option ℚ) (totalInvested : Option ℚ)
    (acc : SummaryStats) (l : List String) (t : String) (ht : t ∈ l)
    (hinv : investedD t = some 0) :
    (l.foldl (summaryStep tickers lastRow holdings investedD totalInvested)
        acc).percentReturnPerStock t = some 0 := by
  induction l generalizing acc with
  | nil => simp at ht
  | cons x xs ih =>
    rw [List.foldl_cons]
    by_cases hxs : t ∈ xs
    · exact ih _ hxs
    · have hx : t = x := by
        rcases List.mem_cons.mp ht with h | h
        · exact h
        · exact absurd h hxs
      subst hx
      rw [(summaryStep_untouched tickers lastRow holdings investedD
        totalInvested _ xs t hxs).2]
      simp [summaryStep, dupdO, hinv, pyGtO]

/-- The amended no-division-by-zero claim: with all *nonzero* valid prices
no division by zero occurs (the simulations end without error); visits with
a *missing* price are skipped without touching cash or holdings; and the
percent-allocation and percent-return computations evaluate to `0` when the
total invested amount, resp. the per-ticker invested amount, is `0`.  (A
present *zero* price, by contrast, is divided by — the counterexample.) -/
def NoDivZeroClaim (tickers : List String) (amounts : List ℚ) (d0 : String)
    (row : List (Option ℚ)) (dates : List String)
    (rows : List (List (Option ℚ))) (cash0 : ℚ) (lastRow : List (Option ℚ))
    (holdings : String → ℚ) (investedD : String → Option ℚ)
    (totalInv : Option ℚ) (cash : ℚ) : Prop :=
  (runSingleShot tickers amounts d0 row cash0).error = false ∧
  (runDCA tickers amounts dates rows cash0).error = false ∧
  (∀ (s : SimState) (idx : ℕ) (t : String), s.error = false →
    colPrice tickers row t = none →
    (ssStep tickers amounts d0 row s (idx, t)).cash = s.cash ∧
    (ssStep tickers amounts d0 row s (idx, t)).holdings = s.holdings) ∧
  (∀ (s : SimState) (d t : String), dcaStep s (d, t, none) = s) ∧
  (totalInv = some 0 → ∀ t ∈ tickers,
    (summaryStats tickers lastRow holdings investedD totalInv
      cash).percentAllocationPerStock t = some 0) ∧
  (∀ t ∈ tickers, investedD t = some 0 →
    (summaryStats tickers lastRow holdings investedD totalInv
      cash).percentReturnPerStock t = some 0)

/-- **C5 (amended).** Missing prices are skipped and never divided by; with
every present price nonzero, neither simulation raises a division error;
and percent computations short-circuit to `0` on a zero denominator.  A
present zero price, however, is divided by and raises (see the
counterexample). -/
theorem c5_no_div_by_zero (tickers : List String) (amounts : List ℚ)
    (d0 : String) (row : List (Option ℚ)) (dates : List String)
    (rows : List (List (Option ℚ))) (cash0 : ℚ) (lastRow : List (Option ℚ))
    (holdings : String → ℚ) (investedD : String → Option ℚ)
    (totalInv : Option ℚ) (cash : ℚ)
    (hnz : pricesNonzeroB row = true)
    (hnzi : itemsNonzeroB (dcaItems tickers dates rows) = true) :
    NoDivZeroClaim tickers amounts d0 row dates rows cash0 lastRow holdings
      investedD totalInv cash := by
  refine ⟨?_, ?_, ?_, ?_, ?_, ?_⟩
  · have hfin : runSingleShot tickers amounts d0 row cash0 ∈
        ssTrace tickers amounts d0 row cash0 := by
      rw [runSingleShot_eq_trace]
      unfold ssTrace
      refine simTrace_getD_mem _ _ _ _ ?_
      rw [ssItems_length]
      exact Nat.lt_succ_self _
    exact ssTrace_error tickers amounts d0 row cash0 hnz _ hfin
  · have hfin : runDCA tickers amounts dates rows cash0 ∈
        dcaTrace tickers dates rows cash0 := by
      rw [runDCA_eq_trace]
      unfold dcaTrace
      exact simTrace_getD_mem _ _ _ _ (Nat.lt_succ_self _)
    exact dcaTrace_error_nz tickers dates rows cash0 hnzi _ hfin
  · intro s idx t herr hcol
    simp only [ssStep, herr, Bool.false_eq_true, if_false, hcol]
    exact ⟨trivial, trivial⟩
  · intro s d t
    unfold dcaStep
    split <;> rfl
  · intro htot t ht
    subst htot
    unfold summaryStats
    exact summary_fold_alloc_zero tickers lastRow holdings investedD _ tickers t ht
  · intro t ht hinv
    unfold summaryStats
    exact summary_fold_return_zero tickers lastRow holdings investedD totalInv
      _ tickers t ht hinv

/-- Witness for the amended C5 at a small instance with a missing and a
nonzero price and a zero invested amount. -/
theorem c5_no_div_by_zero_witness :
    pricesNonzeroB [some (2 : ℚ), none] = true ∧
    itemsNonzeroB (dcaItems ["A", "B"] ["d0"] [[some 2, none]]) = true ∧
    NoDivZeroClaim ["A", "B"] [4, 4] "d0" [some 2, none] ["d0"]
      [[some 2, none]] 4 [some 2, none] (fun _ => 0) (fun _ => some 0)
      (some 0) 4 :=
  ⟨by decide, by decide,
   c5_no_div_by_zero ["A", "B"] [4, 4] "d0" [some 2, none] ["d0"]
     [[some 2, none]] 4 [some 2, none] (fun _ => 0) (fun _ => some 0)
     (some 0) 4 (by decide) (by decide)⟩

/-! ### C6: the chat stage's exception handler -/

/-- **C6 (evaluating the code at the failing input).** When the
chat-completion call itself raises, the `except` handler builds
`AssistantMessage(id=response.id, ...)` with the local `response` unbound
(stock_analysis.py line 237), so the handler raises `NameError` instead of
catching: the stage outcome is the propagated exception, no (empty)
assistant message is appended — the conversation keeps exactly the
messages it had (with only the try block's system-prompt substitution),
and no `"end"` termination signal is produced. -/
theorem c6_chat_error_not_caught (logId : String) (ctx : Ctx) :
    (chat (.error ()) logId ctx).2 = .error () ∧
    (chat (.error ()) logId ctx).1.messages =
      setContent0 ctx.messages (renderedSystemPrompt ctx.investmentPortfolio) ∧
    (chat (.error ()) logId ctx).1.messages.length = ctx.messages.length := by
  refine ⟨rfl, rfl, ?_⟩
  show (setContent0 ctx.messages
    (renderedSystemPrompt ctx.investmentPortfolio)).length = ctx.messages.length
  cases ctx.messages <;> simp [setContent0]

/-! ### C7: the historical-window clamp -/

/-- **C7.** If `current_year - int(investment_date[:4]) > 4`, the effective
start date of the price fetch is exactly `f"{current_year - 4}-01-01"`;
otherwise the investment date string is used unchanged. -/
theorem c7_start_date_clamp (currentYear y : ℤ) (s : String)
    (h : yearOf s = some y) :
    (currentYear - y > 4 →
      clampedInvestmentDate currentYear s =
        some (toString (currentYear - 4) ++ "-01-01")) ∧
    (¬currentYear - y > 4 → clampedInvestmentDate currentYear s = some s) := by
  constructor <;> intro hc <;> simp [clampedInvestmentDate, h, hc]

/-- Witness for C7: a 2015 investment date seen from 2026 clamps to
2022-01-01; one from 2024 is kept. -/
theorem c7_start_date_clamp_witness :
    yearOf "2015-06-01" = some 2015 ∧
    (((2026 : ℤ) - 2015 > 4 →
      clampedInvestmentDate 2026 "2015-06-01" =
        some (toString ((2026 : ℤ) - 4) ++ "-01-01")) ∧
     (¬(2026 : ℤ) - 2015 > 4 →
      clampedInvestmentDate 2026 "2015-06-01" = some "2015-06-01")) :=
  ⟨by with_unfolding_all rfl,
   c7_start_date_clamp 2026 2015 "2015-06-01" (by with_unfolding_all rfl)⟩

/-! ### C8: position of the tool-logs reset in the event stream -/

/-- A final-result event: tool-call start/args/end or text-message
start/content/end. -/
def isFinalResultEvent : GenEvent → Bool
  | .toolCallStart _ _ => true
  | .toolCallArgs _ => true
  | .toolCallEnd _ => true
  | .textStart => true
  | .textContent _ => true
  | .textEnd => true
  | _ => false

/-- A forwarded pipeline progress event. -/
def isProgressEvent : GenEvent → Bool
  | .progress _ => true
  | _ => false

theorem contentEvents_are_text (co : Option String) :
    ∀ e ∈ (match co with
           | some c =>
               if c ≠ "" then (contentChunks c).map GenEvent.textContent
               else [GenEvent.textContent "Something went wrong! Please try again."]
           | none => [GenEvent.textContent "Something went wrong! Please try again."]),
      ∃ s, e = GenEvent.textContent s := by
  intro e he
  cases co with
  | none => exact ⟨_, List.mem_singleton.mp he⟩
  | some c =>
    dsimp only at he
    by_cases hc : c ≠ ""
    · rw [if_pos hc] at he
      rcases List.mem_map.mp he with ⟨s, _, rfl⟩
      exact ⟨s, rfl⟩
    · rw [if_neg hc] at he
      exact ⟨_, List.mem_singleton.mp he⟩

theorem finalResultEvents_are_result (m : Message) :
    ∀ e ∈ finalResultEvents m, isFinalResultEvent e = true := by
  intro e he
  unfold finalResultEvents at he
  split at he
  · split at he
    · simp only [List.mem_cons, List.not_mem_nil, or_false] at he
      rcases he with rfl | rfl | rfl <;> rfl
    · rcases List.mem_append.mp he with h | h
      · rcases List.mem_append.mp h with h | h
        · rcases List.mem_singleton.mp h with rfl
          rfl
        · obtain ⟨s, rfl⟩ := contentEvents_are_text m.content e h
          rfl
      · rcases List.mem_singleton.mp h with rfl
        rfl
  · simp at he

/-- **C8.** In the outbound stream of one request, the event replacing
`/tool_logs` with `[]` occurs exactly once; it is positioned after all the
pipeline's queued progress events (which the drain loop forwards in FIFO
order before it can break) and before every final result event (tool-call
start/args/end or text start/content/end) and the run-finished event. -/
theorem c8_tool_logs_reset_position (queued : List ProgressDelta) (m : Message) :
    ((event_generator queued m).count .toolLogsReset = 1) ∧
    ∃ pre post,
      event_generator queued m = pre ++ .toolLogsReset :: post ∧
      pre = [.runStarted, .stateSnapshot] ++ queued.map .progress ∧
      (∀ e ∈ pre, isFinalResultEvent e = false) ∧
      (∀ e ∈ post, isProgressEvent e = false) ∧
      GenEvent.toolLogsReset ∉ pre ∧ GenEvent.toolLogsReset ∉ post := by
  have hdecomp : event_generator queued m =
      ([.runStarted, .stateSnapshot] ++ queued.map .progress) ++
        .toolLogsReset :: (finalResultEvents m ++ [.runFinished]) := by
    unfold event_generator
    simp [List.append_assoc]
  have hpre_nofinal : ∀ e ∈ [GenEvent.runStarted, GenEvent.stateSnapshot] ++
      queued.map GenEvent.progress, isFinalResultEvent e = false := by
    intro e he
    rcases List.mem_append.mp he with h | h
    · simp only [List.mem_cons, List.not_mem_nil, or_false] at h
      rcases h with rfl | rfl <;> rfl
    · rcases List.mem_map.mp h with ⟨d, _, rfl⟩
      rfl
  have hpre_nores : GenEvent.toolLogsReset ∉
      [GenEvent.runStarted, GenEvent.stateSnapshot] ++
        queued.map GenEvent.progress := by
    intro h
    rcases List.mem_append.mp h with h | h
    · simp at h
    · rcases List.mem_map.mp h with ⟨d, _, hd⟩
      simp at hd
  have hpost_noprog : ∀ e ∈ finalResultEvents m ++ [GenEvent.runFinished],
      isProgressEvent e = false := by
    intro e he
    rcases List.mem_append.mp he with h | h
    · have hres := finalResultEvents_are_result m e h
      cases e <;> first | rfl | simp [isFinalResultEvent] at hres
    · rcases List.mem_singleton.mp h with rfl
      rfl
  have hpost_nores : GenEvent.toolLogsReset ∉
      finalResultEvents m ++ [GenEvent.runFinished] := by
    intro h
    rcases List.mem_append.mp h with h | h
    · have := finalResultEvents_are_result m _ h
      simp [isFinalResultEvent] at this
    · simp at h
  refine ⟨?_, _, _, hdecomp, rfl, hpre_nofinal, hpost_noprog, hpre_nores,
    hpost_nores⟩
  rw [hdecomp, List.count_append, List.count_eq_zero.mpr hpre_nores,
    List.count_cons_self, List.count_eq_zero.mpr hpost_nores]

/-! ### C9: the shared no-tool-calls guard -/

/-- **C9.** Each of the data-fetch, cash-allocation and insights stages
starts with the same guard on the most recent message's `tool_calls`; when
it is `None` the stage is a pure no-op: the context comes back unchanged
(no emitted events, no messages, no tool-log entries), with the insights
stage still returning that context as the pipeline output. -/
theorem c9_no_tool_calls_short_circuit
    (fetch : String → List String × List (List (Option ℚ))) (currentYear : ℤ)
    (spyFetch : Option (List (Option ℚ))) (insightsResp : Option Insights)
    (lg1 lg2 lg3 tmId amId tcId : String) (ctx : Ctx)
    (hguard : lastToolCalls ctx = none) :
    simultion fetch currentYear lg1 ctx = .ok ctx ∧
    cash_allocation spyFetch lg2 tmId amId tcId ctx = .ok ctx ∧
    gather_insights insightsResp lg3 ctx = .ok ctx := by
  refine ⟨?_, ?_, ?_⟩
  · simp only [simultion, hguard]
  · simp only [cash_allocation, hguard]
  · simp only [gather_insights, hguard]

/-- A context whose latest message is an assistant text reply without tool
calls, used to witness the guard. -/
def guardCtx : Ctx :=
  { messages := [⟨"assistant", "m1", some "hello", none, none⟩]
    toolLogs := []
    emitted := []
    availableCash := some 100
    investmentPortfolio := []
    beStockData := none
    beArguments := none
    investmentSummary := none
    insights := none }

theorem c9_no_tool_calls_short_circuit_witness :
    lastToolCalls guardCtx = none ∧
    (simultion (fun _ => ([], [])) 2026 "lg1" guardCtx = .ok guardCtx ∧
     cash_allocation none "lg2" "tm" "am" "tc" guardCtx = .ok guardCtx ∧
     gather_insights none "lg3" guardCtx = .ok guardCtx) :=
  ⟨rfl, c9_no_tool_calls_short_circuit (fun _ => ([], [])) 2026 none none
    "lg1" "lg2" "lg3" "tm" "am" "tc" guardCtx rfl⟩

/-! ### C10: `available_cash` is overwritten only by `cash_allocation` -/

/-- **C10.** Whenever `cash_allocation` completes a simulation (guard
passed, no exception), the produced context's `available_cash` is the
simulation's remaining cash, which is exactly the `cash` field of the
produced investment summary; and no other stage (`chat`, `simultion`,
`gather_insights`) modifies `available_cash`. -/
theorem c10_available_cash_overwrite (spyFetch : Option (List (Option ℚ)))
    (lg tm am tc : String) (ctx : Ctx)
    (hguard : lastToolCalls ctx ≠ none) :
    (match cash_allocation spyFetch lg tm am tc ctx with
     | .ok ctx' => ∃ s, ctx'.investmentSummary = some s ∧
         ctx'.availableCash = some s.cash
     | .error _ => True) ∧
    (∀ (completion : Except Unit LLMResponse) (lg' : String) (c : Ctx),
      (chat completion lg' c).1.availableCash = c.availableCash) ∧
    (∀ (fetch : String → List String × List (List (Option ℚ)))
      (cy : ℤ) (lg' : String) (c c' : Ctx),
      simultion fetch cy lg' c = .ok c' → c'.availableCash = c.availableCash) ∧
    (∀ (resp : Option Insights) (lg' : String) (c c' : Ctx),
      gather_insights resp lg' c = .ok c' → c'.availableCash = c.availableCash) := by
  refine ⟨?_, ?_, ?_, ?_⟩
  · cases h : cash_allocation spyFetch lg tm am tc ctx with
    | error e => trivial
    | ok ctx' =>
      unfold cash_allocation at h
      cases hg : lastToolCalls ctx with
      | none => exact absurd hg hguard
      | some tcs =>
        rw [hg] at h
        dsimp only at h
        repeat' split at h
        all_goals cases h
        all_goals exact ⟨_, rfl, rfl⟩
  · intro completion lg' c
    cases completion with
    | error e => rfl
    | ok resp => cases resp <;> rfl
  · intro fetch cy lg' c c' h
    unfold simultion at h
    cases hg : lastToolCalls c with
    | none =>
      rw [hg] at h
      cases h
      rfl
    | some tcs =>
      rw [hg] at h
      cases tcs with
      | nil => cases h
      | cons tc0 rest =>
        dsimp only at h
        split at h
        · cases h
        · split at h
          · cases h
          · cases h
            rfl
  · intro resp lg' c c' h
    unfold gather_insights at h
    cases hg : lastToolCalls c with
    | none =>
      rw [hg] at h
      cases h
      rfl
    | some tcs =>
      rw [hg] at h
      dsimp only at h
      split at h
      · cases h
      · split at h
        · cases h
        · split at h <;> cases h <;> rfl

/-- The extracted arguments used by the C10 witness context. -/
def allocArgs : ExtractedArgs :=
  { ticker_symbols := ["A"]
    investment_date := "2024-01-01"
    amount_of_dollars_to_be_invested := [10]
    interval_of_investment := none
    to_be_added_in_portfolio := false }

/-- A context about to run `cash_allocation`: the latest message carries the
extract tool call, the fetched price series has one date with price 2, and
the wallet holds 10. -/
def allocCtx : Ctx :=
  { messages := [⟨"assistant", "m1", none,
      some [⟨"tc1", "extract_relevant_data_from_user_prompt",
             .extract allocArgs none⟩], none⟩]
    toolLogs := []
    emitted := []
    availableCash := some 10
    investmentPortfolio := []
    beStockData := some (["d0"], [[some 2]])
    beArguments := some allocArgs
    investmentSummary := none
    insights := none }

theorem c10_available_cash_overwrite_witness :
    lastToolCalls allocCtx ≠ none ∧
    ((match cash_allocation none "lg" "tm" "am" "tc" allocCtx with
      | .ok ctx' => ∃ s, ctx'.investmentSummary = some s ∧
          ctx'.availableCash = some s.cash
      | .error _ => True) ∧
     (∀ (completion : Except Unit LLMResponse) (lg' : String) (c : Ctx),
       (chat completion lg' c).1.availableCash = c.availableCash) ∧
     (∀ (fetch : String → List String × List (List (Option ℚ)))
       (cy : ℤ) (lg' : String) (c c' : Ctx),
       simultion fetch cy lg' c = .ok c' → c'.availableCash = c.availableCash) ∧
     (∀ (resp : Option Insights) (lg' : String) (c c' : Ctx),
       gather_insights resp lg' c = .ok c' →
         c'.availableCash = c.availableCash)) :=
  ⟨by simp [lastToolCalls, allocCtx],
   c10_available_cash_overwrite none "lg" "tm" "am" "tc" allocCtx
     (by simp [lastToolCalls, allocCtx])⟩

end StockAnalysis
